import Mathlib

/-!
Shallow embedding of the core of the mmtms-sync repository (TypeScript):
the test parser's pure helpers (test-case-id extraction), the change
detector (content canonicalization and fingerprint), the documentation
validator, the sync-status classifier and the scanner aggregation
(src/core/parser.ts, src/core/change-detector.ts, src/core/validator.ts,
src/core/scanner.ts), and the mapping-file loader
(src/core/mapping-manager.ts).

JavaScript strings are modelled as lists of characters.  The SHA-256
digest applied at the end of ChangeDetector.calculateHash is modelled as
an injective encoding and identified with the canonicalized content
string it is applied to: equalities between digests correspond exactly
to equalities between the canonical strings (distinctness of canonical
strings yields distinct digests up to hash collisions).  Math.round over
IEEE doubles is modelled as exact rational rounding (floor of x + 1/2,
which is the ECMAScript Math.round semantics).
-/

namespace MMSync

/-- JavaScript strings, modelled as lists of characters (one entry per
UTF-16 code unit of the basic plane; all concrete inputs used below are
ASCII). -/
abbrev Str := List Char

/-- Whitespace per ECMAScript (the set matched by the regex class for
whitespace and used by String.prototype.trim): space, tab, line feed,
carriage return, vertical tab, form feed, and the common Unicode space
code points. -/
def isJsWhitespace (c : Char) : Bool :=
  c = ' ' || c = '\t' || c = '\n' || c = '\r' || c = '\x0b' || c = '\x0c' ||
  c = '\u00A0' || c = '\u2028' || c = '\u2029' || c = '\uFEFF'

/-- Leading-whitespace removal (the left half of String.prototype.trim). -/
def trimLeft (s : Str) : Str := s.dropWhile isJsWhitespace

/-- Trailing-whitespace removal (the right half of String.prototype.trim). -/
def trimRight (s : Str) : Str := (s.reverse.dropWhile isJsWhitespace).reverse

/-- Model of String.prototype.trim: remove leading and trailing
whitespace, preserving all interior characters. -/
def jsTrim (s : Str) : Str := trimRight (trimLeft s)

/-- Model of Array.prototype.join with a single-character separator. -/
def joinChar (c : Char) : List Str → Str
  | [] => []
  | [x] => x
  | x :: y :: ys => x ++ c :: joinChar c (y :: ys)

/-- JavaScript truthiness of a string-or-undefined value: an absent value
and the empty string are falsy, every other string is truthy. -/
def truthyStr : Option Str → Bool
  | none => false
  | some s => !s.isEmpty

/-- A single action or verification step extracted from a comment
(models the TestStep interface of src/models/parsed-test.ts). -/
structure TestStep where
  text : Str
  lineNumber : Nat
deriving DecidableEq, Repr

/-- The precondition JSDoc tag is a string or an array of strings
(models the string-or-string-array union of JSDocTags.precondition). -/
inductive StrOrList where
  | str (s : Str)
  | list (l : List Str)
deriving DecidableEq, Repr

/-- JSDoc tags extracted from the file-level JSDoc block (models the
JSDocTags interface); absent tags are modelled as none. -/
structure JSDocTags where
  objective : Option Str
  precondition : Option StrOrList
  knownIssue : Option Str
  playwrightTags : List Str
deriving DecidableEq, Repr

/-- Recognized test call shapes (models the test-type union of
ParsedTest.type). -/
inductive TestType where
  | normal
  | skip
  | fixme
deriving DecidableEq, Repr

/-- A structured test record produced by the parser (models the
ParsedTest interface of src/models/parsed-test.ts). -/
structure ParsedTest where
  title : Str
  testCaseId : Option Str
  type : TestType
  jsdocTags : JSDocTags
  actionSteps : List TestStep
  verificationSteps : List TestStep
  lineNumber : Nat
deriving DecidableEq, Repr

/-- Comparator used by ChangeDetector.sortSteps, as a relation:
(a, b) => a.lineNumber - b.lineNumber sorts ascending by source line. -/
def stepLe (a b : TestStep) : Prop := a.lineNumber ≤ b.lineNumber

instance : DecidableRel stepLe := fun a b => Nat.decLe a.lineNumber b.lineNumber

/-- Model of ChangeDetector.sortSteps: a stable sort of the steps by
their recorded source line.  ECMAScript Array.prototype.sort is required
to be stable and to order by the comparator, which determines its output
uniquely; insertion sort is stable and sorted, hence yields exactly that
output. -/
def sortSteps (steps : List TestStep) : List TestStep :=
  List.insertionSort stepLe steps

/-- Section label for the objective part of the canonical string. -/
def objectiveLabel : Str := ("objective:").toList

/-- Section label for the precondition part of the canonical string. -/
def preconditionLabel : Str := ("precondition:").toList

/-- Section label for the action-steps part of the canonical string. -/
def actionsLabel : Str := ("actions:").toList

/-- Section label for the verification-steps part of the canonical
string. -/
def verificationsLabel : Str := ("verifications:").toList

/-- Section label for the known-issue part of the canonical string. -/
def knownIssueLabel : Str := ("knownIssue:").toList

/-- The objective push-block of ChangeDetector.calculateHash: a section
only for a truthy (present and nonempty) objective, trimmed. -/
def objectivePart (tags : JSDocTags) : List Str :=
  match tags.objective with
  | some o => if o.isEmpty then [] else [objectiveLabel ++ jsTrim o]
  | none => []

/-- The precondition push-block of ChangeDetector.calculateHash: the
string-or-array value is coerced to an array, each entry trimmed and the
entries joined with the bar; an empty string is falsy and contributes no
section, while an array (even empty) is truthy. -/
def preconditionPart (tags : JSDocTags) : List Str :=
  match tags.precondition with
  | some (.str s) =>
      if s.isEmpty then [] else [preconditionLabel ++ joinChar '|' ([s].map jsTrim)]
  | some (.list l) => [preconditionLabel ++ joinChar '|' (l.map jsTrim)]
  | none => []

/-- The action-steps push-block of ChangeDetector.calculateHash: present
only for a nonempty list; steps re-sorted by line, texts trimmed, joined
with the bar. -/
def actionsPart (steps : List TestStep) : List Str :=
  if steps.isEmpty then []
  else [actionsLabel ++ joinChar '|' ((sortSteps steps).map (fun s => jsTrim s.text))]

/-- The verification-steps push-block of ChangeDetector.calculateHash. -/
def verificationsPart (steps : List TestStep) : List Str :=
  if steps.isEmpty then []
  else [verificationsLabel ++ joinChar '|' ((sortSteps steps).map (fun s => jsTrim s.text))]

/-- The known-issue push-block of ChangeDetector.calculateHash. -/
def knownIssuePart (tags : JSDocTags) : List Str :=
  match tags.knownIssue with
  | some k => if k.isEmpty then [] else [knownIssueLabel ++ jsTrim k]
  | none => []

/-- The parts array built by ChangeDetector.calculateHash before the
final join: one labelled section per present (truthy) field, in fixed
order, each section internally joined with the bar character.  Absent or
falsy (empty-string) fields contribute no section. -/
def calculateHashParts (test : ParsedTest) : List Str :=
  objectivePart test.jsdocTags ++ preconditionPart test.jsdocTags ++
  actionsPart test.actionSteps ++ verificationsPart test.verificationSteps ++
  knownIssuePart test.jsdocTags

/-- The normalized content string hashed by ChangeDetector.calculateHash:
the sections joined with a newline. -/
def calculateHashInput (test : ParsedTest) : Str :=
  joinChar '\n' (calculateHashParts test)

/-- Model of ChangeDetector.calculateHash.  The source applies SHA-256 to
the normalized content and returns the 64-character hex digest; the
digest is modelled as an injective encoding and identified with the
normalized content itself (see the module docstring). -/
def calculateHash (test : ParsedTest) : Str :=
  calculateHashInput test

/-- Model of ChangeDetector.hasChanged: recompute and compare. -/
def hasChanged (currentTest : ParsedTest) (previousHash : Str) : Bool :=
  calculateHash currentTest != previousHash

/-- Issue severity (models the severity union of ValidationIssue). -/
inductive Severity where
  | error
  | warning
  | info
deriving DecidableEq, Repr

/-- Issue category (models the category union of ValidationIssue; the
syntax category of the source is named stx here). -/
inductive Category where
  | documentation
  | actionSteps
  | verificationSteps
  | testCaseId
  | testTitle
  | stx
deriving DecidableEq, Repr

/-- A validation issue (models the ValidationIssue interface). -/
structure ValidationIssue where
  category : Category
  severity : Severity
  message : Str
  lineNumber : Option Nat
  suggestedFix : Option Str
deriving DecidableEq, Repr

/-- A validation result (models the ValidationResult interface). -/
structure ValidationResult where
  isValid : Bool
  issues : List ValidationIssue
deriving DecidableEq, Repr

/-- Validation configuration (models the ValidationConfig interface of
src/models/configuration.ts; projectKey is optional). -/
structure ValidationConfig where
  requiredTags : List Str
  optionalTags : List Str
  enforceActionComments : Bool
  enforceVerificationComments : Bool
  projectKey : Option Str
deriving DecidableEq, Repr

/-- The default project key. -/
def mmKey : Str := ("MM").toList

/-- Model of the JavaScript expression config.projectKey || the default
key: undefined and the empty string both fall back to the default. -/
def jsOrKey : Option Str → Str
  | none => mmKey
  | some s => if s.isEmpty then mmKey else s

/-- Uppercase basic-latin letter, the character class in the title
regex. -/
def isUpperAZ (c : Char) : Bool := ('A' ≤ c) && (c ≤ 'Z')

/-- Decimal digit, the character class matched by the regexes. -/
def isDigit09 (c : Char) : Bool := ('0' ≤ c) && (c ≤ '9')

/-- Literal matching at the start of a string: the remainder after the
literal when the string starts with it, none otherwise (the behavior of
a regex literal at the current position). -/
def matchLit : Str → Str → Option Str
  | [], s => some s
  | _ :: _, [] => none
  | p :: ps, c :: cs => if c = p then matchLit ps cs else none

/-- Model of the anchored full-string test-case-id pattern of
Validator.validate (the configured key, then the dash-T separator, then
one or more digits, then end of string).  The key is spliced into the
regex verbatim in the source and is modelled as a literal. -/
def testCasePatternTest (key : Str) (s : Str) : Bool :=
  match matchLit (key ++ ("-T").toList) s with
  | some rest => !rest.isEmpty && rest.all isDigit09
  | none => false

/-- Model of TestParser.extractTestCaseId: match the anchored pattern
(configured key, dash-T, one or more digits, then a colon) at the start
of the title and return the capture before the colon, or undefined.  The
regex is deterministic because none of the adjacent pieces overlap
(letters of the key, the digit run, the colon). -/
def extractTestCaseId (key : Str) (title : Str) : Option Str :=
  match matchLit (key ++ ("-T").toList) title with
  | some rest =>
      (let ds := rest.takeWhile isDigit09
       if ds.isEmpty then none
       else
         match rest.dropWhile isDigit09 with
         | ':' :: _ => some (key ++ ("-T").toList ++ ds)
         | _ => none)
  | none => none

/-- Model of the title-prefix strip in Validator.validate: replace a
leading match of one-or-more uppercase letters, dash-T, one-or-more
digits, a colon, and any following whitespace run, by the empty string;
a title with no such leading match is returned unchanged.  Note the
uppercase-letter run is independent of the configured project key. -/
def stripTitleId (title : Str) : Str :=
  let ups := title.takeWhile isUpperAZ
  if ups.isEmpty then title
  else
    match title.dropWhile isUpperAZ with
    | '-' :: 'T' :: r2 =>
        (let ds := r2.takeWhile isDigit09
         if ds.isEmpty then title
         else
           match r2.dropWhile isDigit09 with
           | ':' :: r4 => r4.dropWhile isJsWhitespace
           | _ => title)
    | _ => title

/-- Message of the missing-objective error issue. -/
def msgMissingObjective : Str := ("Missing required @objective tag").toList

/-- Message of the missing-action-steps error issue. -/
def msgMissingActions : Str := ("Missing action step comments").toList

/-- Message of the missing-verification-steps error issue. -/
def msgMissingVerifications : Str := ("Missing verification step comments").toList

/-- Message of the missing-test-case-id warning issue. -/
def msgMissingCaseId : Str :=
  ("Missing test case ID in test title (will be assigned automatically)").toList

/-- Message prefix of the invalid-test-case-id error issue; the source
appends the offending id. -/
def msgInvalidCaseId : Str := ("Invalid test case ID format: ").toList

/-- Message of the too-short-title warning issue. -/
def msgTitleTooShort : Str := ("Test title is too short").toList

/-- The objective-required rule of Validator.validate: an error issue
when the required-tags list contains the objective tag (with or without
the at-sign) and the objective is absent or empty (JS truthiness). -/
def objectiveIssues (config : ValidationConfig) (test : ParsedTest) : List ValidationIssue :=
  if (config.requiredTags.contains (("objective").toList) ||
      config.requiredTags.contains (("@objective").toList)) &&
     !(truthyStr test.jsdocTags.objective) then
    [⟨Category.documentation, Severity.error, msgMissingObjective, some test.lineNumber, none⟩]
  else []

/-- The action-steps rule of Validator.validate. -/
def actionStepIssues (config : ValidationConfig) (test : ParsedTest) : List ValidationIssue :=
  if config.enforceActionComments && test.actionSteps.isEmpty then
    [⟨Category.actionSteps, Severity.error, msgMissingActions, some test.lineNumber, none⟩]
  else []

/-- The verification-steps rule of Validator.validate. -/
def verificationStepIssues (config : ValidationConfig) (test : ParsedTest) : List ValidationIssue :=
  if config.enforceVerificationComments && test.verificationSteps.isEmpty then
    [⟨Category.verificationSteps, Severity.error, msgMissingVerifications, some test.lineNumber, none⟩]
  else []

/-- The test-case-id rules of Validator.validate: a warning when the id
is falsy (absent or empty), an error when it is present but fails the
anchored pattern for the effective project key. -/
def caseIdIssues (config : ValidationConfig) (test : ParsedTest) : List ValidationIssue :=
  let effKey := jsOrKey config.projectKey
  match test.testCaseId with
  | none => [⟨Category.testCaseId, Severity.warning, msgMissingCaseId, some test.lineNumber, none⟩]
  | some cid =>
      if cid.isEmpty then
        [⟨Category.testCaseId, Severity.warning, msgMissingCaseId, some test.lineNumber, none⟩]
      else if !(testCasePatternTest effKey cid) then
        [⟨Category.testCaseId, Severity.error, msgInvalidCaseId ++ cid, some test.lineNumber, none⟩]
      else []

/-- The title-length rule of Validator.validate. -/
def titleIssues (test : ParsedTest) : List ValidationIssue :=
  if (stripTitleId test.title).length < 10 then
    [⟨Category.testTitle, Severity.warning, msgTitleTooShort, some test.lineNumber, none⟩]
  else []

/-- Model of Validator.validate: every rule is evaluated independently
and the issues accumulate in source order; the result is valid exactly
when no issue has error severity. -/
def validate (config : ValidationConfig) (test : ParsedTest) : ValidationResult :=
  let issues :=
    objectiveIssues config test ++ actionStepIssues config test ++
    verificationStepIssues config test ++ caseIdIssues config test ++ titleIssues test
  ⟨(issues.filter (fun i => i.severity == Severity.error)).isEmpty, issues⟩

/-- Sync status between code and the test-management system (models the
SyncStatus enum of src/models/test-case-mapping.ts). -/
inductive SyncStatus where
  | synced
  | unsynced
  | needsUpdate
  | conflict
  | orphaned
deriving DecidableEq, Repr

/-- The fields of a mapping record consumed by the scanner (models the
TestCaseMapping interface of src/models/test-case-mapping.ts restricted
to the fields the scan path reads). -/
structure TestCaseMapping where
  id : Str
  testFilePath : Str
  testTitle : Str
  testCaseId : Option Str
  syncStatus : SyncStatus
  lastSyncedHash : Option Str
deriving DecidableEq, Repr

/-- Whether validation of the test yields at least one error-severity
issue (the check made twice by the scanner). -/
def hasValidationErrors (config : ValidationConfig) (test : ParsedTest) : Bool :=
  (validate config test).issues.any (fun i => i.severity == Severity.error)

/-- Model of Scanner.detectSyncStatus: validation errors first, then the
unmapped checks (falsy id or no mapping), then the digest comparison.
A null stored digest always differs from the freshly computed digest. -/
def detectSyncStatus (config : ValidationConfig) (parsedTest : ParsedTest)
    (mapping : Option TestCaseMapping) (currentHash : Str) : SyncStatus :=
  if hasValidationErrors config parsedTest then SyncStatus.unsynced
  else if !(truthyStr parsedTest.testCaseId) then SyncStatus.unsynced
  else
    match mapping with
    | none => SyncStatus.unsynced
    | some m =>
        if m.lastSyncedHash != some currentHash then SyncStatus.needsUpdate
        else SyncStatus.synced

/-- One reported issue line of a file result (models the issue entries of
FileResult in src/models/scan-result.ts). -/
structure ScanIssue where
  testTitle : Str
  syncStatus : SyncStatus
  message : Str
deriving DecidableEq, Repr

/-- Per-file scan result (models the FileResult interface of
src/models/scan-result.ts). -/
structure FileResult where
  filePath : Str
  testCount : Nat
  syncedCount : Nat
  unmappedCount : Nat
  outOfSyncCount : Nat
  validationErrorCount : Nat
  issues : List ScanIssue
deriving DecidableEq, Repr

/-- Model of Scanner.createErrorFileResult: the synthetic result recorded
for a file whose scan threw. -/
def createErrorFileResult (filePath : Str) (errMsg : Str) : FileResult :=
  ⟨filePath, 0, 0, 0, 0, 1, [⟨("File Scan Error").toList, SyncStatus.unsynced, errMsg⟩]⟩

/-- Model of Scanner.createMappingMap followed by Map.prototype.get: the
map is keyed by truthy testCaseId values, later entries overwriting
earlier ones, and a missed lookup yields null. -/
def lookupMapping (mappings : List TestCaseMapping) (cid : Str) : Option TestCaseMapping :=
  mappings.foldl
    (fun acc m => if truthyStr m.testCaseId && m.testCaseId == some cid then some m else acc)
    none

/-- Running counters and issue list accumulated over the tests of one
file by Scanner.scanFile. -/
structure Tally where
  syncedCount : Nat
  unmappedCount : Nat
  outOfSyncCount : Nat
  validationErrorCount : Nat
  issues : List ScanIssue
deriving DecidableEq, Repr

/-- Message of the unmapped-test issue line. -/
def msgNotMapped : Str := ("Test is not mapped to a TMS test case").toList

/-- Message of the out-of-sync issue line. -/
def msgContentChanged : Str := ("Test content has changed since last sync").toList

/-- Message prefix of the validation-failure issue line; the source
appends the joined error messages. -/
def msgValidationFailed : Str := ("Validation failed: ").toList

/-- The mapping looked up for one test by Scanner.scanFile: a lookup
only happens for a truthy test case id. -/
def testMapping (mappings : List TestCaseMapping) (test : ParsedTest) : Option TestCaseMapping :=
  match test.testCaseId with
  | some cid => if cid.isEmpty then none else lookupMapping mappings cid
  | none => none

/-- Model of the per-test body of Scanner.scanFile plus
Scanner.categorizeTestResult and Scanner.handleUnsyncedStatus: compute
the digest, look up the mapping for a truthy id, validate, classify, and
increment exactly one counter (the conflict and orphaned statuses fall
through the switch without effect, but are never produced locally). -/
def categorizeTest (config : ValidationConfig) (mappings : List TestCaseMapping)
    (acc : Tally) (test : ParsedTest) : Tally :=
  let currentHash := calculateHash test
  let mapping := testMapping mappings test
  let validationResult := validate config test
  let hasErrs := validationResult.issues.any (fun i => i.severity == Severity.error)
  match detectSyncStatus config test mapping currentHash with
  | SyncStatus.synced => { acc with syncedCount := acc.syncedCount + 1 }
  | SyncStatus.unsynced =>
      if hasErrs then
        { acc with
          validationErrorCount := acc.validationErrorCount + 1,
          issues := acc.issues ++
            [⟨test.title, SyncStatus.unsynced,
              msgValidationFailed ++
                List.intercalate ((", ").toList)
                  ((validationResult.issues.filter (fun i => i.severity == Severity.error)).map
                    (fun i => i.message))⟩] }
      else
        { acc with
          unmappedCount := acc.unmappedCount + 1,
          issues := acc.issues ++ [⟨test.title, SyncStatus.unsynced, msgNotMapped⟩] }
  | SyncStatus.needsUpdate =>
      { acc with
        outOfSyncCount := acc.outOfSyncCount + 1,
        issues := acc.issues ++ [⟨test.title, SyncStatus.needsUpdate, msgContentChanged⟩] }
  | SyncStatus.conflict => acc
  | SyncStatus.orphaned => acc

/-- The file result assembled by Scanner.scanFile from the parsed tests
and the loaded mapping records of one file. -/
def scanFileResult (config : ValidationConfig) (path : Str)
    (tests : List ParsedTest) (mappings : List TestCaseMapping) : FileResult :=
  let t := tests.foldl (categorizeTest config mappings) ⟨0, 0, 0, 0, []⟩
  ⟨path, tests.length, t.syncedCount, t.unmappedCount, t.outOfSyncCount,
    t.validationErrorCount, t.issues⟩

/-- The per-file inputs of a directory scan: the file path together with
the outcome of parsing the file and the outcome of loading its mapping
records (either step may throw, modelled as an error value carrying the
thrown message). -/
structure FileInput where
  path : Str
  parseOutcome : Except Str (List ParsedTest)
  mappingOutcome : Except Str (List TestCaseMapping)

/-- Model of Scanner.scanFile on an abstract file input: a throw during
parsing or mapping load propagates; otherwise the file result is
computed. -/
def scanFile (config : ValidationConfig) (fi : FileInput) : Except Str FileResult :=
  match fi.parseOutcome with
  | Except.error e => Except.error e
  | Except.ok tests =>
      match fi.mappingOutcome with
      | Except.error e => Except.error e
      | Except.ok mappings => Except.ok (scanFileResult config fi.path tests mappings)

/-- Model of Scanner.scanAllFiles: scan each file in order, converting a
throw into the synthetic error file result and continuing with the
remaining files. -/
def scanAllFiles (config : ValidationConfig) (files : List FileInput) : List FileResult :=
  files.map (fun fi =>
    match scanFile config fi with
    | Except.ok r => r
    | Except.error e => createErrorFileResult fi.path e)

/-- Aggregate metrics returned by Scanner.calculateMetrics. -/
structure ScanMetrics where
  totalTests : Nat
  syncedTests : Nat
  unmappedTests : Nat
  outOfSyncTests : Nat
  validationErrors : Nat
  syncCoverage : Int
  documentationCompliance : Int
deriving DecidableEq, Repr

/-- Math.round of the rational num / den for a positive denominator:
floor of the value plus one half (ECMAScript rounds half-integers toward
positive infinity). -/
def jsRound (num : Int) (den : Int) : Int := Int.fdiv (2 * num + den) (2 * den)

/-- Model of Scanner.calculateMetrics: sum the per-file counters, then
compute the two rounded percentages, each zero when there are no
tests. -/
def calculateMetrics (fileResults : List FileResult) : ScanMetrics :=
  let totalTests := (fileResults.map (fun r => r.testCount)).sum
  let syncedTests := (fileResults.map (fun r => r.syncedCount)).sum
  let unmappedTests := (fileResults.map (fun r => r.unmappedCount)).sum
  let outOfSyncTests := (fileResults.map (fun r => r.outOfSyncCount)).sum
  let validationErrors := (fileResults.map (fun r => r.validationErrorCount)).sum
  let mappedTests := syncedTests + outOfSyncTests
  let syncCoverage : Int :=
    if 0 < totalTests then jsRound (100 * (mappedTests : Int)) (totalTests : Int) else 0
  let validTests : Int := (totalTests : Int) - (validationErrors : Int)
  let documentationCompliance : Int :=
    if 0 < totalTests then jsRound (100 * validTests) (totalTests : Int) else 0
  ⟨totalTests, syncedTests, unmappedTests, outOfSyncTests, validationErrors,
    syncCoverage, documentationCompliance⟩

/-- Predicate of the too-short-title warning among validation issues. -/
def isTitleShortIssue (i : ValidationIssue) : Bool :=
  i.category == Category.testTitle && i.severity == Severity.warning &&
  i.message == msgTitleTooShort

/-- Predicate of an error-severity case-id issue (the malformed-id
branch). -/
def isCaseIdErrorIssue (i : ValidationIssue) : Bool :=
  i.category == Category.testCaseId && i.severity == Severity.error

/-- Predicate of the missing-case-id warning issue. -/
def isMissingCaseIdWarning (i : ValidationIssue) : Bool :=
  i.category == Category.testCaseId && i.severity == Severity.warning &&
  i.message == msgMissingCaseId

/-- The project key actually used by the parser when the Scanner passes
config.projectKey to the TestParser constructor: the TypeScript default
parameter applies only to undefined, so an empty string is used as-is. -/
def parserKey : Option Str → Str
  | none => mmKey
  | some s => s

/-- Claim-side reading of the too-short-title rule (used only for the
refinement comparison): strip a leading prefix consisting of the
CONFIGURED project key, dash-T, one or more digits and a colon, as the
spec words it, leaving the title unchanged when that pattern does not
match. -/
def specTitleWithoutKeyId (key : Str) (title : Str) : Str :=
  match matchLit (key ++ ("-T").toList) title with
  | some rest =>
      (let ds := rest.takeWhile isDigit09
       if ds.isEmpty then title
       else
         match rest.dropWhile isDigit09 with
         | ':' :: r4 => r4
         | _ => title)
  | none => title

/-- The default validation configuration (DEFAULT_CONFIG.validation of
src/models/configuration.ts). -/
def defaultValidationConfig : ValidationConfig :=
  ⟨[("@objective").toList], [("@precondition").toList, ("@known_issue").toList],
    true, true, some mmKey⟩

theorem matchLit_eq_some_iff (p s r : Str) : matchLit p s = some r ↔ s = p ++ r := by
  induction p generalizing s with
  | nil => simp [matchLit, eq_comm]
  | cons a ps ih =>
      cases s with
      | nil => simp [matchLit]
      | cons c cs =>
          by_cases h : c = a
          · subst h
            simp [matchLit, ih]
          · simp [matchLit, h]

theorem matchLit_self_append (p r : Str) : matchLit p (p ++ r) = some r :=
  (matchLit_eq_some_iff p (p ++ r) r).mpr rfl

theorem all_takeWhile (p : Char → Bool) (l : Str) : (l.takeWhile p).all p = true := by
  induction l with
  | nil => rfl
  | cons a t ih =>
      by_cases h : p a
      · simp [List.takeWhile_cons, h, ih]
      · simp [List.takeWhile_cons, h]

theorem takeWhile_append_all (p : Char → Bool) (l1 l2 : Str) (h : l1.all p = true) :
    (l1 ++ l2).takeWhile p = l1 ++ l2.takeWhile p := by
  induction l1 with
  | nil => simp
  | cons a t ih =>
      simp only [List.all_cons, Bool.and_eq_true] at h
      simp [List.takeWhile_cons, h.1, ih h.2]

theorem dropWhile_append_all (p : Char → Bool) (l1 l2 : Str) (h : l1.all p = true) :
    (l1 ++ l2).dropWhile p = l2.dropWhile p := by
  induction l1 with
  | nil => simp
  | cons a t ih =>
      simp only [List.all_cons, Bool.and_eq_true] at h
      simp [List.dropWhile_cons, h.1, ih h.2]

theorem extractTestCaseId_eq_some_iff (key title cid : Str) :
    extractTestCaseId key title = some cid ↔
      ∃ ds rest, ds ≠ [] ∧ ds.all isDigit09 = true ∧
        cid = (key ++ ("-T").toList) ++ ds ∧
        title = (key ++ ("-T").toList) ++ (ds ++ ':' :: rest) := by
  constructor
  · intro h
    unfold extractTestCaseId at h
    cases hm : matchLit (key ++ ("-T").toList) title with
    | none => rw [hm] at h; exact absurd h (by simp)
    | some rest0 =>
        rw [hm] at h
        simp only at h
        split at h
        · exact absurd h (by simp)
        · rename_i hd
          split at h
          · rename_i tail hdrop
            simp only [Option.some.injEq] at h
            refine ⟨rest0.takeWhile isDigit09, tail, ?_, all_takeWhile _ _, ?_, ?_⟩
            · intro hnil; rw [hnil] at hd; exact hd rfl
            · rw [← h]
            · have htitle := (matchLit_eq_some_iff _ _ _).mp hm
              rw [htitle]
              conv_lhs =>
                rw [← List.takeWhile_append_dropWhile (p := isDigit09) (l := rest0), hdrop]
          · exact absurd h (by simp)
  · rintro ⟨ds, rest, hne, hall, hcid, htitle⟩
    subst hcid htitle
    unfold extractTestCaseId
    rw [matchLit_self_append]
    simp only
    have ht : (ds ++ ':' :: rest).takeWhile isDigit09 = ds := by
      rw [takeWhile_append_all _ _ _ hall]
      simp [List.takeWhile_cons, isDigit09]
    have hdw : (ds ++ ':' :: rest).dropWhile isDigit09 = ':' :: rest := by
      rw [dropWhile_append_all _ _ _ hall]
      simp [List.dropWhile_cons, isDigit09]
    rw [ht, hdw]
    have hie : ds.isEmpty = false := by
      cases ds with
      | nil => exact absurd rfl hne
      | cons a t => rfl
    rw [if_neg (by simp [hie])]
    simp [List.append_assoc]

theorem extractTestCaseId_matches_pattern (key title cid : Str)
    (h : extractTestCaseId key title = some cid) : testCasePatternTest key cid = true := by
  obtain ⟨ds, rest, hne, hall, hcid, -⟩ := (extractTestCaseId_eq_some_iff key title cid).mp h
  subst hcid
  unfold testCasePatternTest
  rw [matchLit_self_append]
  have hie : ds.isEmpty = false := by
    cases ds with
    | nil => exact absurd rfl hne
    | cons a t => rfl
  simp [hie, hall]

theorem objectiveIssues_any_eq_false (config : ValidationConfig) (t : ParsedTest)
    (p : ValidationIssue → Bool)
    (hp : ∀ sv fx, p ⟨Category.documentation, Severity.error, msgMissingObjective, sv, fx⟩ = false) :
    (objectiveIssues config t).any p = false := by
  unfold objectiveIssues
  split
  · simp [hp]
  · rfl

theorem actionStepIssues_any_eq_false (config : ValidationConfig) (t : ParsedTest)
    (p : ValidationIssue → Bool)
    (hp : ∀ sv fx, p ⟨Category.actionSteps, Severity.error, msgMissingActions, sv, fx⟩ = false) :
    (actionStepIssues config t).any p = false := by
  unfold actionStepIssues
  split
  · simp [hp]
  · rfl

theorem verificationStepIssues_any_eq_false (config : ValidationConfig) (t : ParsedTest)
    (p : ValidationIssue → Bool)
    (hp : ∀ sv fx,
      p ⟨Category.verificationSteps, Severity.error, msgMissingVerifications, sv, fx⟩ = false) :
    (verificationStepIssues config t).any p = false := by
  unfold verificationStepIssues
  split
  · simp [hp]
  · rfl

theorem titleIssues_any_eq_false (t : ParsedTest) (p : ValidationIssue → Bool)
    (hp : ∀ sv fx, p ⟨Category.testTitle, Severity.warning, msgTitleTooShort, sv, fx⟩ = false) :
    (titleIssues t).any p = false := by
  unfold titleIssues
  split
  · simp [hp]
  · rfl

theorem caseIdIssues_any_eq_false (config : ValidationConfig) (t : ParsedTest)
    (p : ValidationIssue → Bool)
    (hwarn : ∀ sv fx, p ⟨Category.testCaseId, Severity.warning, msgMissingCaseId, sv, fx⟩ = false)
    (herr : ∀ m sv fx, p ⟨Category.testCaseId, Severity.error, m, sv, fx⟩ = false) :
    (caseIdIssues config t).any p = false := by
  unfold caseIdIssues
  cases t.testCaseId with
  | none => simp [hwarn]
  | some cid =>
      simp only
      split
      · simp [hwarn]
      · split
        · simp [herr]
        · rfl

theorem validate_any_split (config : ValidationConfig) (t : ParsedTest)
    (p : ValidationIssue → Bool) :
    (validate config t).issues.any p =
      ((objectiveIssues config t).any p || (actionStepIssues config t).any p ||
       (verificationStepIssues config t).any p || (caseIdIssues config t).any p ||
       (titleIssues t).any p) := by
  simp [validate, List.any_append, Bool.or_assoc]

/-- C1: Scanner.detectSyncStatus is total on every input triple and
classifies by strict priority: Unsynced exactly when validation has an
error-severity issue or the test has no (truthy) extracted case id or no
mapping record is given; otherwise NeedsUpdate exactly when the stored
digest differs from the current digest; Synced exactly when validation
passes, the case id and mapping are present, and the stored digest
equals the current digest. -/
theorem c1_detectSyncStatus_characterization (config : ValidationConfig) (test : ParsedTest)
    (mapping : Option TestCaseMapping) (currentHash : Str) :
    (detectSyncStatus config test mapping currentHash = SyncStatus.unsynced ↔
      (hasValidationErrors config test = true ∨ truthyStr test.testCaseId = false ∨
        mapping = none)) ∧
    (detectSyncStatus config test mapping currentHash = SyncStatus.needsUpdate ↔
      (hasValidationErrors config test = false ∧ truthyStr test.testCaseId = true ∧
        ∃ m, mapping = some m ∧ m.lastSyncedHash ≠ some currentHash)) ∧
    (detectSyncStatus config test mapping currentHash = SyncStatus.synced ↔
      (hasValidationErrors config test = false ∧ truthyStr test.testCaseId = true ∧
        ∃ m, mapping = some m ∧ m.lastSyncedHash = some currentHash)) := by
  cases hv : hasValidationErrors config test <;>
    cases ht : truthyStr test.testCaseId <;>
      cases hm : mapping with
      | none => simp [detectSyncStatus, hv, ht, hm]
      | some m =>
          by_cases hh : m.lastSyncedHash = some currentHash <;>
            simp [detectSyncStatus, hv, ht, hm, hh, bne_iff_ne]

/-- C7 counterexample: with the default configuration (project key MM)
and the title of the form PROJ-T123 colon short, the title stripped of a
leading MM-prefixed id is the unchanged 16-character title, so the claim
predicts no warning; the code nevertheless strips the PROJ-prefixed id
(its regex accepts any uppercase run) leaving 5 characters and emits the
too-short warning. -/
def c7CounterexampleTest : ParsedTest :=
  ⟨("PROJ-T123: short").toList, none, TestType.normal,
    ⟨some (("An objective").toList), none, none, []⟩,
    [⟨("a step").toList, 2⟩], [⟨("a check").toList, 3⟩], 1⟩

/-- C7 is false as stated: a title that keeps at least 10 characters
after stripping a configured-key prefix still receives the too-short
warning, because the source strips any uppercase-letter key. -/
theorem c7_counterexample :
    10 ≤ (specTitleWithoutKeyId mmKey c7CounterexampleTest.title).length ∧
    (validate defaultValidationConfig c7CounterexampleTest).issues.any isTitleShortIssue =
      true := by
  exact ⟨by decide, by decide⟩

/-- C7 amended: validate emits the too-short-title warning (severity
warning, title category) iff the title, after stripping a leading prefix
of one-or-more uppercase letters, dash-T, one-or-more digits, a colon
and any following whitespace (independently of the configured project
key), is under 10 characters. -/
theorem c7_titleTooShort_iff (config : ValidationConfig) (t : ParsedTest) :
    ((validate config t).issues.any isTitleShortIssue = true) ↔
      (stripTitleId t.title).length < 10 := by
  rw [validate_any_split]
  rw [objectiveIssues_any_eq_false config t _ (fun sv fx => rfl),
    actionStepIssues_any_eq_false config t _ (fun sv fx => rfl),
    verificationStepIssues_any_eq_false config t _ (fun sv fx => rfl),
    caseIdIssues_any_eq_false config t _ (fun sv fx => rfl) (fun m sv fx => rfl)]
  unfold titleIssues
  split
  · rename_i h
    simpa [isTitleShortIssue] using h
  · rename_i h
    simpa [isTitleShortIssue] using h

/-- C8: on any title, extractTestCaseId returns the capture of the
anchored pattern (configured key, dash-T, digits, colon) exactly when
the title decomposes accordingly, and is absent otherwise; the spec
scenarios hold (an MM-prefixed title yields its id, a PROJ-prefixed
title with project key MM yields no id); and a test without an extracted
id receives the missing-case-id warning from validate and never the
format error. -/
theorem c8_extractTestCaseId_behavior :
    (∀ key title cid : Str, extractTestCaseId key title = some cid ↔
      ∃ ds rest, ds ≠ [] ∧ ds.all isDigit09 = true ∧
        cid = (key ++ ("-T").toList) ++ ds ∧
        title = (key ++ ("-T").toList) ++ (ds ++ ':' :: rest)) ∧
    extractTestCaseId mmKey (("MM-T12345: User can log in").toList) =
      some (("MM-T12345").toList) ∧
    extractTestCaseId mmKey (("PROJ-T123: Some long enough title").toList) = none ∧
    (∀ (config : ValidationConfig) (t : ParsedTest), t.testCaseId = none →
      (validate config t).issues.any isMissingCaseIdWarning = true ∧
      (validate config t).issues.any isCaseIdErrorIssue = false) := by
  refine ⟨extractTestCaseId_eq_some_iff, by decide, by decide, ?_⟩
  intro config t h
  constructor
  · rw [validate_any_split]
    have hc : (caseIdIssues config t).any isMissingCaseIdWarning = true := by
      simp [caseIdIssues, h, isMissingCaseIdWarning]
    simp [hc]
  · rw [validate_any_split]
    rw [objectiveIssues_any_eq_false config t _ (fun sv fx => rfl),
      actionStepIssues_any_eq_false config t _ (fun sv fx => rfl),
      verificationStepIssues_any_eq_false config t _ (fun sv fx => rfl),
      titleIssues_any_eq_false t _ (fun sv fx => rfl)]
    have hc : (caseIdIssues config t).any isCaseIdErrorIssue = false := by
      simp [caseIdIssues, h, isCaseIdErrorIssue]
    simp [hc]

/-- Witness test for the validator half of C8: a test without an
extracted case id. -/
def c8WitnessTest : ParsedTest :=
  ⟨("Some descriptive title").toList, none, TestType.normal,
    ⟨none, none, none, []⟩, [], [], 1⟩

/-- Witness for C8 at a concrete test without a case id. -/
theorem c8_witness :
    (validate defaultValidationConfig c8WitnessTest).issues.any isMissingCaseIdWarning = true ∧
    (validate defaultValidationConfig c8WitnessTest).issues.any isCaseIdErrorIssue = false :=
  c8_extractTestCaseId_behavior.2.2.2 defaultValidationConfig c8WitnessTest rfl

/-- Configuration with an empty project key (a same-key configuration in
the sense of the Scanner constructor, which passes config.projectKey to
both the parser and the validator). -/
def c10Config : ValidationConfig := ⟨[], [], false, false, some []⟩

/-- A test whose id was extracted by the parser configured with the
empty project key. -/
def c10Test : ParsedTest :=
  ⟨("-T5:abcdefghij").toList, some (("-T5").toList), TestType.normal,
    ⟨none, none, none, []⟩, [], [], 1⟩

/-- C10 is false as stated: with the project key set to the empty string
the Scanner passes the same key to parser and validator, the parser
extracts the id -T5, but the validator falls back to the MM key and
emits the format error, so the error branch is reachable on parser
output. -/
theorem c10_counterexample :
    c10Config.projectKey = some [] ∧
    c10Test.testCaseId = extractTestCaseId (parserKey c10Config.projectKey) c10Test.title ∧
    (validate c10Config c10Test).issues.any isCaseIdErrorIssue = true := by
  exact ⟨rfl, by decide, by decide⟩

/-- C10 amended: provided the shared project key is not the empty string
(the validator falls back to MM on a falsy key while the parser uses the
empty key as-is), every case id extracted by the parser matches the
validator pattern, so the malformed-case-id error branch is unreachable
on parser output. -/
theorem c10_no_format_error_on_parser_output (k : Option Str) (config : ValidationConfig)
    (test : ParsedTest) (hk : k ≠ some []) (hcfg : config.projectKey = k)
    (hid : test.testCaseId = extractTestCaseId (parserKey k) test.title) :
    (validate config test).issues.any isCaseIdErrorIssue = false := by
  rw [validate_any_split]
  rw [objectiveIssues_any_eq_false config test _ (fun sv fx => rfl),
    actionStepIssues_any_eq_false config test _ (fun sv fx => rfl),
    verificationStepIssues_any_eq_false config test _ (fun sv fx => rfl),
    titleIssues_any_eq_false test _ (fun sv fx => rfl)]
  suffices h : (caseIdIssues config test).any isCaseIdErrorIssue = false by simp [h]
  unfold caseIdIssues
  cases hex : extractTestCaseId (parserKey k) test.title with
  | none =>
      rw [hex] at hid
      simp [hid, isCaseIdErrorIssue]
  | some cid =>
      rw [hex] at hid
      have hpat : testCasePatternTest (parserKey k) cid = true :=
        extractTestCaseId_matches_pattern _ _ _ hex
      have heff : jsOrKey config.projectKey = parserKey k := by
        rw [hcfg]
        cases k with
        | none => rfl
        | some s =>
            cases s with
            | nil => exact absurd rfl hk
            | cons a t => rfl
      have hne : cid ≠ [] := by
        obtain ⟨ds, rest, hdne, -, hcid, -⟩ := (extractTestCaseId_eq_some_iff _ _ _).mp hex
        subst hcid
        simp
      have hiecid : cid.isEmpty = false := by
        cases cid with
        | nil => exact absurd rfl hne
        | cons a t => rfl
      simp [hid, hiecid, heff, hpat, isCaseIdErrorIssue]

/-- A test whose id was extracted by the parser configured with the
default MM key. -/
def c10WitnessTest : ParsedTest :=
  ⟨("MM-T42: A nice title").toList, some (("MM-T42").toList), TestType.normal,
    ⟨none, none, none, []⟩, [], [], 1⟩

/-- Witness for the amended C10 at a concrete nonempty key and parser
output. -/
theorem c10_witness :
    (validate defaultValidationConfig c10WitnessTest).issues.any isCaseIdErrorIssue = false :=
  c10_no_format_error_on_parser_output (some mmKey) defaultValidationConfig c10WitnessTest
    (by decide) rfl (by decide)

/-- JSON values as produced by JSON.parse: null, booleans, numbers
(fractional parts irrelevant to the claims, modelled as integers),
strings, arrays, and objects as key-value lists (JSON.parse keeps the
last occurrence of a duplicated key; property access is modelled
accordingly). -/
inductive JVal where
  | jnull
  | jbool (b : Bool)
  | jnum (n : Int)
  | jstr (s : Str)
  | jarr (items : List JVal)
  | jobj (fields : List (Str × JVal))

/-- Whether the JavaScript value is null. -/
def isNullJ : JVal → Bool
  | JVal.jnull => true
  | _ => false

/-- Whether typeof yields the object tag: objects, arrays and null. -/
def isObjectType : JVal → Bool
  | JVal.jobj _ => true
  | JVal.jarr _ => true
  | JVal.jnull => true
  | _ => false

/-- Model of the JavaScript in-operator on a parsed JSON value: key
presence on an object; the claims never probe array index or length
keys, so arrays and primitives have no relevant own properties. -/
def hasProp (v : JVal) (k : Str) : Bool :=
  match v with
  | JVal.jobj fs => fs.any (fun f => f.1 == k)
  | _ => false

/-- Model of property access on a parsed JSON value: the value under the
last occurrence of the key (JSON.parse keeps the last duplicate), or
undefined. -/
def getProp (v : JVal) (k : Str) : Option JVal :=
  match v with
  | JVal.jobj fs => (fs.reverse.find? (fun f => f.1 == k)).map (fun f => f.2)
  | _ => none

/-- The required top-level fields checked by
MappingManager.validateMapping, in source order. -/
def requiredFields : List Str :=
  [("id").toList, ("testFilePath").toList, ("testTitle").toList,
   ("syncStatus").toList, ("metadata").toList]

/-- The required metadata fields checked by
MappingManager.validateMapping, in source order. -/
def requiredMetadataFields : List Str :=
  [("createdAt").toList, ("updatedAt").toList, ("createdBy").toList, ("syncCount").toList]

/-- The first missing field found by the check loop of validateMapping. -/
def firstMissingField (v : JVal) (fs : List Str) : Option Str :=
  fs.find? (fun f => !(hasProp v f))

/-- Model of MappingManager.validateMapping: reject non-objects and
null, then the first missing required field, then a metadata value that
is not a non-null object, then the first missing metadata field. -/
def validateMapping (m : JVal) : Except Str Unit :=
  if !(isObjectType m) || isNullJ m then Except.error (("Mapping must be an object").toList)
  else
    match firstMissingField m requiredFields with
    | some f => Except.error ((("Missing required field: ").toList) ++ f)
    | none =>
        match getProp m (("metadata").toList) with
        | some md =>
            if isObjectType md && !(isNullJ md) then
              match firstMissingField md requiredMetadataFields with
              | some f => Except.error ((("Missing required metadata field: ").toList) ++ f)
              | none => Except.ok ()
            else Except.error (("Missing required field: metadata").toList)
        | none => Except.error (("Missing required field: metadata").toList)

/-- The validation loop of MappingManager.loadMapping: the first bad
entry throws. -/
def validateAllMappings : List JVal → Except Str Unit
  | [] => Except.ok ()
  | m :: ms =>
      match validateMapping m with
      | Except.error e => Except.error e
      | Except.ok _ => validateAllMappings ms

/-- The state of a mapping file as seen by loadMapping: absent, present
but not parseable as JSON, or parsed to a JSON value (the readFile and
JSON.parse outcome abstraction). -/
inductive FileContent where
  | missing
  | invalid (raw : Str)
  | parsed (v : JVal)

/-- Model of MappingManager.loadMapping: a missing file is zero records;
unparseable content throws; a parsed non-array throws; an array with a
bad entry throws; otherwise the records are returned unchanged. -/
def loadMapping : FileContent → Except Str (List JVal)
  | FileContent.missing => Except.ok []
  | FileContent.invalid _ => Except.error (("Invalid JSON in mapping file").toList)
  | FileContent.parsed v =>
      match v with
      | JVal.jarr items =>
          (match validateAllMappings items with
           | Except.error e => Except.error e
           | Except.ok _ => Except.ok items)
      | _ => Except.error (("Mapping file must contain an array").toList)

/-- Claim-side well-formedness of one mapping entry: all five required
fields present, and the metadata value carries all four required
metadata fields. -/
def entryWellFormed (m : JVal) : Bool :=
  requiredFields.all (fun f => hasProp m f) &&
  (match getProp m (("metadata").toList) with
   | some md => requiredMetadataFields.all (fun f => hasProp md f)
   | none => false)

theorem hasProp_getProp (v : JVal) (k : Str) (h : hasProp v k = true) :
    ∃ md, getProp v k = some md := by
  cases v with
  | jobj fs =>
      simp only [hasProp, List.any_eq_true] at h
      have hrev : ∃ f ∈ fs.reverse, (fun f => f.1 == k) f = true := by
        obtain ⟨f, hf, hp⟩ := h
        exact ⟨f, List.mem_reverse.mpr hf, hp⟩
      have := List.find?_isSome.mpr hrev
      cases hfind : (fs.reverse.find? (fun f => f.1 == k)) with
      | none => rw [hfind] at this; exact absurd this (by simp)
      | some f => exact ⟨f.2, by simp [getProp, hfind]⟩
  | jnull => exact absurd h (by simp [hasProp])
  | jbool b => exact absurd h (by simp [hasProp])
  | jnum n => exact absurd h (by simp [hasProp])
  | jstr s => exact absurd h (by simp [hasProp])
  | jarr items => exact absurd h (by simp [hasProp])

theorem validateMapping_ok_iff (m : JVal) :
    validateMapping m = Except.ok () ↔ entryWellFormed m = true := by
  cases m with
  | jnull => exact ⟨fun h => Except.noConfusion h, fun h => Bool.noConfusion h⟩
  | jbool b => exact ⟨fun h => Except.noConfusion h, fun h => Bool.noConfusion h⟩
  | jnum n => exact ⟨fun h => Except.noConfusion h, fun h => Bool.noConfusion h⟩
  | jstr s => exact ⟨fun h => Except.noConfusion h, fun h => Bool.noConfusion h⟩
  | jarr items => exact ⟨fun h => Except.noConfusion h, fun h => Bool.noConfusion h⟩
  | jobj fields =>
      unfold validateMapping
      rw [if_neg (by simp [isObjectType, isNullJ])]
      cases hf : firstMissingField (JVal.jobj fields) requiredFields with
      | some f =>
          have hmem := List.mem_of_find?_eq_some hf
          have hp := List.find?_some hf
          simp only [Bool.not_eq_eq_eq_not, Bool.not_true] at hp
          constructor
          · intro h; exact absurd h (by simp)
          · intro h
            unfold entryWellFormed at h
            simp only [Bool.and_eq_true, List.all_eq_true] at h
            rw [h.1 f hmem] at hp
            exact absurd hp (by simp)
      | none =>
          have hall : ∀ f ∈ requiredFields, hasProp (JVal.jobj fields) f = true := by
            intro f hfm
            have := List.find?_eq_none.mp hf f hfm
            simpa using this
          have hmdp : hasProp (JVal.jobj fields) (("metadata").toList) = true :=
            hall _ (by simp [requiredFields])
          obtain ⟨md, hmd⟩ := hasProp_getProp _ _ hmdp
          unfold entryWellFormed
          simp only [hmd]
          have hallb : requiredFields.all (fun f => hasProp (JVal.jobj fields) f) = true := by
            simp only [List.all_eq_true]
            exact hall
          by_cases hmt : (isObjectType md && !(isNullJ md)) = true
          · rw [if_pos hmt]
            cases hf2 : firstMissingField md requiredMetadataFields with
            | some f2 =>
                have hmem2 := List.mem_of_find?_eq_some hf2
                have hp2 := List.find?_some hf2
                simp only [Bool.not_eq_eq_eq_not, Bool.not_true] at hp2
                constructor
                · intro h; exact absurd h (by simp)
                · intro h
                  simp only [Bool.and_eq_true, List.all_eq_true] at h
                  rw [h.2 f2 hmem2] at hp2
                  exact absurd hp2 (by simp)
            | none =>
                have hall2 : requiredMetadataFields.all (fun f => hasProp md f) = true := by
                  simp only [List.all_eq_true]
                  intro f2 hf2m
                  simpa using List.find?_eq_none.mp hf2 f2 hf2m
                simp [hallb, hall2]
          · rw [if_neg hmt]
            constructor
            · intro h; exact absurd h (by simp)
            · intro h
              simp only [Bool.and_eq_true, List.all_eq_true] at h
              have hca := h.2 (("createdAt").toList) (by simp [requiredMetadataFields])
              cases md with
              | jobj fs2 => exact absurd (by simp [isObjectType, isNullJ]) hmt
              | jarr its => exact absurd (by simp [isObjectType, isNullJ]) hmt
              | jnull => exact absurd hca (by simp [hasProp])
              | jbool b => exact absurd hca (by simp [hasProp])
              | jnum n => exact absurd hca (by simp [hasProp])
              | jstr s => exact absurd hca (by simp [hasProp])

theorem validateAllMappings_ok_iff (items : List JVal) :
    validateAllMappings items = Except.ok () ↔ ∀ m ∈ items, entryWellFormed m = true := by
  induction items with
  | nil => simp [validateAllMappings]
  | cons m ms ih =>
      unfold validateAllMappings
      cases hv : validateMapping m with
      | error e =>
          simp only [List.mem_cons]
          constructor
          · intro h; exact absurd h (by simp)
          · intro h
            have := (validateMapping_ok_iff m).mpr (h m (Or.inl rfl))
            rw [hv] at this
            exact absurd this (by simp)
      | ok u =>
          cases u
          have hm := (validateMapping_ok_iff m).mp hv
          simp only [List.mem_cons, ih]
          constructor
          · intro h x hx
            rcases hx with hx | hx
            · subst hx; exact hm
            · exact h x hx
          · intro h x hx
            exact h x (Or.inr hx)

theorem except_error_exists_of_not_ok (r : Except Str Unit) (h : r ≠ Except.ok ()) :
    ∃ e, r = Except.error e := by
  cases r with
  | error e => exact ⟨e, rfl⟩
  | ok u => cases u; exact absurd rfl h

/-- C9: loadMapping treats a missing mapping file as zero records and
does not raise; given present content it throws exactly when the content
is not valid JSON, is valid JSON but not an array, or contains an entry
missing a required field (id, testFilePath, testTitle, syncStatus,
metadata) or whose metadata value lacks createdAt, updatedAt, createdBy
or syncCount; otherwise it returns the array of records unchanged. -/
theorem c9_loadMapping_characterization :
    loadMapping FileContent.missing = Except.ok [] ∧
    (∀ raw, ∃ e, loadMapping (FileContent.invalid raw) = Except.error e) ∧
    (∀ items, (∃ e, loadMapping (FileContent.parsed (JVal.jarr items)) = Except.error e) ↔
      ∃ m ∈ items, entryWellFormed m = false) ∧
    (∀ items, (∀ m ∈ items, entryWellFormed m = true) →
      loadMapping (FileContent.parsed (JVal.jarr items)) = Except.ok items) ∧
    (∀ v, (∀ items, v ≠ JVal.jarr items) →
      ∃ e, loadMapping (FileContent.parsed v) = Except.error e) := by
  refine ⟨rfl, fun raw => ⟨_, rfl⟩, ?_, ?_, ?_⟩
  · intro items
    constructor
    · rintro ⟨e, he⟩
      cases hv : validateAllMappings items with
      | error e2 =>
          have hnok : ¬ validateAllMappings items = Except.ok () := by rw [hv]; simp
          have hnall := fun hall => hnok ((validateAllMappings_ok_iff items).mpr hall)
          by_contra hno
          push_neg at hno
          exact hnall (fun m hm => by
            have := hno m hm
            cases hwf : entryWellFormed m with
            | true => rfl
            | false => exact absurd hwf this)
      | ok u =>
          cases u
          simp only [loadMapping, hv] at he
          exact absurd he (by simp)
    · intro ⟨m, hm, hwf⟩
      have hnok : validateAllMappings items ≠ Except.ok () := by
        intro hok
        have := (validateAllMappings_ok_iff items).mp hok m hm
        rw [hwf] at this
        exact absurd this (by simp)
      obtain ⟨e, he⟩ := except_error_exists_of_not_ok _ hnok
      refine ⟨e, ?_⟩
      simp only [loadMapping, he]
  · intro items hall
    have hok := (validateAllMappings_ok_iff items).mpr hall
    simp only [loadMapping, hok]
  · intro v hv
    cases v with
    | jarr items => exact absurd rfl (hv items)
    | jnull => exact ⟨("Mapping file must contain an array").toList, rfl⟩
    | jbool b => exact ⟨("Mapping file must contain an array").toList, rfl⟩
    | jnum n => exact ⟨("Mapping file must contain an array").toList, rfl⟩
    | jstr s => exact ⟨("Mapping file must contain an array").toList, rfl⟩
    | jobj fields => exact ⟨("Mapping file must contain an array").toList, rfl⟩

/-- A well-formed mapping entry used by the C9 witness. -/
def goodMappingEntry : JVal :=
  JVal.jobj
    [(("id").toList, JVal.jstr (("m1").toList)),
     (("testFilePath").toList, JVal.jstr (("a.spec.ts").toList)),
     (("testTitle").toList, JVal.jstr (("a title").toList)),
     (("syncStatus").toList, JVal.jstr (("synced").toList)),
     (("metadata").toList, JVal.jobj
       [(("createdAt").toList, JVal.jstr (("t0").toList)),
        (("updatedAt").toList, JVal.jstr (("t1").toList)),
        (("createdBy").toList, JVal.jstr (("cli").toList)),
        (("syncCount").toList, JVal.jnum 1)])]

/-- Witness for C9 at a concrete parsed array with one well-formed
entry. -/
theorem c9_witness :
    loadMapping (FileContent.parsed (JVal.jarr [goodMappingEntry])) =
      Except.ok [goodMappingEntry] :=
  c9_loadMapping_characterization.2.2.2.1 [goodMappingEntry]
    (fun m hm => by
      rw [List.mem_singleton] at hm
      subst hm
      rfl)

/-- C4: scanDirectory-level failure isolation: scanning N files always
yields exactly N file results in order; a file whose scan throws (during
parsing or mapping load) contributes the synthetic result with testCount
0, validationErrorCount 1 and a single issue carrying the thrown
message, and every non-throwing file contributes its normally computed
result. -/
theorem c4_scanAllFiles_isolation (config : ValidationConfig) (files : List FileInput) :
    (scanAllFiles config files).length = files.length ∧
    (∀ i fi, files.get? i = some fi →
      ∃ r, (scanAllFiles config files).get? i = some r ∧
        ((scanFile config fi = Except.ok r) ∨
         (∃ e, scanFile config fi = Except.error e ∧ r.testCount = 0 ∧
           r.validationErrorCount = 1 ∧
           r.issues = [⟨("File Scan Error").toList, SyncStatus.unsynced, e⟩]))) := by
  constructor
  · simp [scanAllFiles]
  · intro i fi hfi
    cases hs : scanFile config fi with
    | ok r =>
        refine ⟨r, ?_, Or.inl rfl⟩
        rw [scanAllFiles, List.get?_map, hfi]
        simp [hs]
    | error e =>
        refine ⟨createErrorFileResult fi.path e, ?_, Or.inr ⟨e, rfl, rfl, rfl, rfl⟩⟩
        rw [scanAllFiles, List.get?_map, hfi]
        simp [hs]

/-- A file input whose scan succeeds trivially (no tests, no mapping
records). -/
def c4OkFile (p : Str) : FileInput := ⟨p, Except.ok [], Except.ok []⟩

/-- The file input of the spec scenario whose parse throws. -/
def c4ErrorFile : FileInput :=
  ⟨("e.spec.ts").toList, Except.error (("Failed to parse file e.spec.ts").toList),
    Except.ok []⟩

/-- The ten files of the spec scenario: file number five throws on
parse. -/
def c4WitnessFiles : List FileInput :=
  [c4OkFile (("f0").toList), c4OkFile (("f1").toList), c4OkFile (("f2").toList),
   c4OkFile (("f3").toList), c4ErrorFile, c4OkFile (("f5").toList),
   c4OkFile (("f6").toList), c4OkFile (("f7").toList), c4OkFile (("f8").toList),
   c4OkFile (("f9").toList)]

/-- Witness for C4 at the concrete ten-file scenario, applied at the
throwing file. -/
theorem c4_witness :
    ∃ r, (scanAllFiles defaultValidationConfig c4WitnessFiles).get? 4 = some r ∧
      ((scanFile defaultValidationConfig c4ErrorFile = Except.ok r) ∨
       (∃ e, scanFile defaultValidationConfig c4ErrorFile = Except.error e ∧
         r.testCount = 0 ∧ r.validationErrorCount = 1 ∧
         r.issues = [⟨("File Scan Error").toList, SyncStatus.unsynced, e⟩])) :=
  (c4_scanAllFiles_isolation defaultValidationConfig c4WitnessFiles).2 4 c4ErrorFile rfl

/-- A test that passes validation under the default configuration but is
not mapped. -/
def c3GoodTest : ParsedTest :=
  ⟨("A sufficiently long test title").toList, none, TestType.normal,
    ⟨some (("Check that login works").toList), none, none, []⟩,
    [⟨("step one").toList, 3⟩], [⟨("check one").toList, 5⟩], 1⟩

/-- Three scanned files: two parse failures (each contributing a
synthetic result with testCount 0 and validationErrorCount 1) and one
file with a single valid unmapped test. -/
def c3CounterexampleFiles : List FileInput :=
  [⟨("a.spec.ts").toList, Except.error (("Failed to parse file a.spec.ts").toList),
     Except.ok []⟩,
   ⟨("b.spec.ts").toList, Except.error (("Failed to parse file b.spec.ts").toList),
     Except.ok []⟩,
   ⟨("c.spec.ts").toList, Except.ok [c3GoodTest], Except.ok []⟩]

/-- C3 is false as stated: with synthetic parse-failure results the
validation-error count can exceed the test count, making
documentationCompliance negative (here totalTests is 1, validationErrors
is 2, and the compliance is minus 100, outside the claimed range). -/
theorem c3_counterexample :
    (calculateMetrics (scanAllFiles defaultValidationConfig c3CounterexampleFiles)).totalTests
        ≠ 0 ∧
    (calculateMetrics
        (scanAllFiles defaultValidationConfig c3CounterexampleFiles)).documentationCompliance
      < 0 := by
  exact ⟨by decide, by decide⟩

theorem sum_map_add_eq (l : List FileResult) (f g : FileResult → Nat) :
    (l.map f).sum + (l.map g).sum = (l.map (fun x => f x + g x)).sum := by
  induction l with
  | nil => rfl
  | cons a t ih =>
      simp only [List.map_cons, List.sum_cons]
      omega

theorem categorizeTest_mapped_le (config : ValidationConfig) (mappings : List TestCaseMapping)
    (acc : Tally) (t : ParsedTest) :
    (categorizeTest config mappings acc t).syncedCount +
        (categorizeTest config mappings acc t).outOfSyncCount ≤
      acc.syncedCount + acc.outOfSyncCount + 1 := by
  simp only [categorizeTest]
  split
  all_goals
    first
      | omega
      | (simp <;> omega)
      | (split <;> (first | omega | (simp <;> omega)))

theorem foldl_tally_mapped_le (config : ValidationConfig) (mappings : List TestCaseMapping)
    (tests : List ParsedTest) :
    ∀ acc : Tally,
      (tests.foldl (categorizeTest config mappings) acc).syncedCount +
          (tests.foldl (categorizeTest config mappings) acc).outOfSyncCount ≤
        acc.syncedCount + acc.outOfSyncCount + tests.length := by
  induction tests with
  | nil => intro acc; simp
  | cons t ts ih =>
      intro acc
      simp only [List.foldl_cons, List.length_cons]
      have h1 := ih (categorizeTest config mappings acc t)
      have h2 := categorizeTest_mapped_le config mappings acc t
      omega

theorem scanAllFiles_mapped_le (config : ValidationConfig) (files : List FileInput) :
    ∀ r ∈ scanAllFiles config files, r.syncedCount + r.outOfSyncCount ≤ r.testCount := by
  intro r hr
  simp only [scanAllFiles, List.mem_map] at hr
  obtain ⟨fi, -, heq⟩ := hr
  subst heq
  cases hs : scanFile config fi with
  | error e => simp [createErrorFileResult]
  | ok res =>
      cases hp : fi.parseOutcome with
      | error e =>
          simp only [scanFile, hp] at hs
          exact absurd hs (by simp)
      | ok tests =>
          cases hm : fi.mappingOutcome with
          | error e =>
              simp only [scanFile, hp, hm] at hs
              exact absurd hs (by simp)
          | ok mappings =>
              simp only [scanFile, hp, hm, Except.ok.injEq] at hs
              subst hs
              unfold scanFileResult
              simp only
              have := foldl_tally_mapped_le config mappings tests ⟨0, 0, 0, 0, []⟩
              simpa using this

theorem jsRound_nonneg (num den : Int) (h1 : 0 ≤ num) (h2 : 0 < den) :
    0 ≤ jsRound num den :=
  Int.fdiv_nonneg (by omega) (by omega)

theorem jsRound_le_100 (num den : Int) (h2 : 0 < den) (h : num ≤ 100 * den) :
    jsRound num den ≤ 100 := by
  unfold jsRound
  rw [Int.fdiv_eq_ediv _ (by omega)]
  have hle : 2 * num + den ≤ den + 2 * den * 100 := by omega
  calc (2 * num + den) / (2 * den) ≤ (den + 2 * den * 100) / (2 * den) :=
        Int.ediv_le_ediv (by omega) hle
    _ = den / (2 * den) + 100 := Int.add_mul_ediv_left den 100 (by omega)
    _ = 100 := by rw [Int.ediv_eq_zero_of_lt (by omega) (by omega)]; omega

/-- C3 amended: for every list of per-file results produced by the
scanner, both metrics are 0 when totalTests is 0 and follow the rounded
formulas otherwise; syncCoverage always lies in 0..100, and
documentationCompliance lies in 0..100 whenever validationErrors does
not exceed totalTests - but synthetic parse-failure results (testCount
0, validationErrorCount 1) can push validationErrors above totalTests,
in which case documentationCompliance is negative. -/
theorem c3_calculateMetrics_bounds (config : ValidationConfig) (files : List FileInput) :
    ((calculateMetrics (scanAllFiles config files)).totalTests = 0 →
      (calculateMetrics (scanAllFiles config files)).syncCoverage = 0 ∧
      (calculateMetrics (scanAllFiles config files)).documentationCompliance = 0) ∧
    (calculateMetrics (scanAllFiles config files)).syncCoverage =
      (if 0 < (calculateMetrics (scanAllFiles config files)).totalTests then
        jsRound
          (100 * (((calculateMetrics (scanAllFiles config files)).syncedTests +
            (calculateMetrics (scanAllFiles config files)).outOfSyncTests : Nat) : Int))
          (((calculateMetrics (scanAllFiles config files)).totalTests : Nat) : Int)
       else 0) ∧
    (calculateMetrics (scanAllFiles config files)).documentationCompliance =
      (if 0 < (calculateMetrics (scanAllFiles config files)).totalTests then
        jsRound
          (100 * ((((calculateMetrics (scanAllFiles config files)).totalTests : Nat) : Int) -
            (((calculateMetrics (scanAllFiles config files)).validationErrors : Nat) : Int)))
          (((calculateMetrics (scanAllFiles config files)).totalTests : Nat) : Int)
       else 0) ∧
    (0 < (calculateMetrics (scanAllFiles config files)).totalTests →
      0 ≤ (calculateMetrics (scanAllFiles config files)).syncCoverage ∧
      (calculateMetrics (scanAllFiles config files)).syncCoverage ≤ 100) ∧
    (0 < (calculateMetrics (scanAllFiles config files)).totalTests →
      (calculateMetrics (scanAllFiles config files)).validationErrors ≤
        (calculateMetrics (scanAllFiles config files)).totalTests →
      0 ≤ (calculateMetrics (scanAllFiles config files)).documentationCompliance ∧
      (calculateMetrics (scanAllFiles config files)).documentationCompliance ≤ 100) := by
  have hmapped :
      ((scanAllFiles config files).map (fun r => r.syncedCount)).sum +
          ((scanAllFiles config files).map (fun r => r.outOfSyncCount)).sum ≤
        ((scanAllFiles config files).map (fun r => r.testCount)).sum := by
    rw [sum_map_add_eq]
    exact List.sum_le_sum (scanAllFiles_mapped_le config files)
  refine ⟨?_, ?_, ?_, ?_, ?_⟩
  · intro h0
    unfold calculateMetrics at h0 ⊢
    simp only at h0 ⊢
    rw [if_neg (by omega), if_neg (by omega)]
    exact ⟨rfl, rfl⟩
  · rfl
  · rfl
  · intro hpos
    clear hpos
    unfold calculateMetrics
    simp only
    split
    · rename_i h
      refine ⟨jsRound_nonneg _ _ (by positivity) (by exact_mod_cast h), ?_⟩
      refine jsRound_le_100 _ _ (by exact_mod_cast h) ?_
      omega
    · exact ⟨le_refl 0, by omega⟩
  · intro hpos hve
    clear hpos
    unfold calculateMetrics at hve ⊢
    simp only at hve ⊢
    split
    · rename_i h
      constructor
      · refine jsRound_nonneg _ _ ?_ (by exact_mod_cast h)
        omega
      · refine jsRound_le_100 _ _ (by exact_mod_cast h) ?_
        omega
    · exact ⟨le_refl 0, by omega⟩

/-- One successfully scanned file with one valid unmapped test, used by
the C3 witness. -/
def c3WitnessFiles : List FileInput :=
  [⟨("c.spec.ts").toList, Except.ok [c3GoodTest], Except.ok []⟩]

/-- Witness for the amended C3 at a concrete scan with one test and no
validation errors. -/
theorem c3_witness :
    0 ≤ ScanMetrics.documentationCompliance
          (calculateMetrics (scanAllFiles defaultValidationConfig c3WitnessFiles)) ∧
    ScanMetrics.documentationCompliance
        (calculateMetrics (scanAllFiles defaultValidationConfig c3WitnessFiles)) ≤ 100 :=
  (c3_calculateMetrics_bounds defaultValidationConfig c3WitnessFiles).2.2.2.2
    (by decide) (by decide)

/-- Strict comparison of steps by source line. -/
def stepLt (a b : TestStep) : Prop := a.lineNumber < b.lineNumber

theorem sortSteps_sorted (steps : List TestStep) : List.Sorted stepLe (sortSteps steps) := by
  letI : IsTotal TestStep stepLe := ⟨fun a b => Nat.le_total a.lineNumber b.lineNumber⟩
  letI : IsTrans TestStep stepLe := ⟨fun a b c hab hbc => Nat.le_trans hab hbc⟩
  exact List.sorted_insertionSort stepLe steps

theorem sortSteps_perm (steps : List TestStep) : (sortSteps steps).Perm steps :=
  List.perm_insertionSort stepLe steps

theorem sortSteps_sorted_strict (steps : List TestStep)
    (hnd : (steps.map (fun s => s.lineNumber)).Nodup) :
    List.Sorted stepLt (sortSteps steps) := by
  have h1 := sortSteps_sorted steps
  have hnds : ((sortSteps steps).map (fun s => s.lineNumber)).Nodup :=
    (((sortSteps_perm steps).map _).nodup_iff).mpr hnd
  have h2 : List.Pairwise (fun x y : TestStep => x.lineNumber ≠ y.lineNumber)
      (sortSteps steps) := (List.pairwise_map).mp hnds
  exact (h1.and h2).imp (fun h => Nat.lt_of_le_of_ne h.1 h.2)

theorem sortSteps_eq_of_perm (a b : List TestStep) (hperm : a.Perm b)
    (hnd : (b.map (fun s => s.lineNumber)).Nodup) : sortSteps a = sortSteps b := by
  letI : IsAntisymm TestStep stepLt :=
    ⟨fun x y hxy hyx => absurd (Nat.lt_trans hxy hyx) (Nat.lt_irrefl _)⟩
  have hperm2 : (sortSteps a).Perm (sortSteps b) :=
    (sortSteps_perm a).trans (hperm.trans (sortSteps_perm b).symm)
  have hnda : (a.map (fun s => s.lineNumber)).Nodup := ((hperm.map _).nodup_iff).mpr hnd
  exact List.eq_of_perm_of_sorted hperm2 (sortSteps_sorted_strict a hnda)
    (sortSteps_sorted_strict b hnd)

/-- C6 amended: for every test whose action steps (respectively
verification steps) carry pairwise distinct source line numbers - as
parser-produced steps always do, two step comments never sharing a
source line - every permutation of the in-memory step lists leaves
calculateHash unchanged, because the line-based re-sort normalizes the
order.  Distinctness is necessary: the sort is stable, so two steps on
the same line keep their in-memory order. -/
theorem c6_hash_invariant_under_step_permutation (t : ParsedTest) (a v : List TestStep)
    (ha : a.Perm t.actionSteps) (hv : v.Perm t.verificationSteps)
    (hnda : (t.actionSteps.map (fun s => s.lineNumber)).Nodup)
    (hndv : (t.verificationSteps.map (fun s => s.lineNumber)).Nodup) :
    calculateHash { t with actionSteps := a, verificationSteps := v } = calculateHash t := by
  unfold calculateHash calculateHashInput calculateHashParts actionsPart verificationsPart
  have hsa : sortSteps a = sortSteps t.actionSteps := sortSteps_eq_of_perm _ _ ha hnda
  have hsv : sortSteps v = sortSteps t.verificationSteps := sortSteps_eq_of_perm _ _ hv hndv
  have hea : a.isEmpty = t.actionSteps.isEmpty := by
    have hlen := ha.length_eq
    rw [Bool.eq_iff_iff, List.isEmpty_iff, List.isEmpty_iff, ← List.length_eq_zero,
      ← List.length_eq_zero, hlen]
  have hev : v.isEmpty = t.verificationSteps.isEmpty := by
    have hlen := hv.length_eq
    rw [Bool.eq_iff_iff, List.isEmpty_iff, List.isEmpty_iff, ← List.length_eq_zero,
      ← List.length_eq_zero, hlen]
  simp [hsa, hsv, hea, hev]

/-- A test with two action steps on distinct source lines. -/
def c6WitnessTest : ParsedTest :=
  ⟨("Some long test title").toList, none, TestType.normal,
    ⟨some (("An objective").toList), none, none, []⟩,
    [⟨("first action").toList, 4⟩, ⟨("second action").toList, 7⟩],
    [⟨("first check").toList, 9⟩], 1⟩

/-- Witness for the amended C6: swapping the two in-memory action steps
of a concrete test with distinct lines leaves the fingerprint
unchanged. -/
theorem c6_witness :
    calculateHash
        { c6WitnessTest with
          actionSteps := [⟨("second action").toList, 7⟩, ⟨("first action").toList, 4⟩],
          verificationSteps := [⟨("first check").toList, 9⟩] } =
      calculateHash c6WitnessTest :=
  c6_hash_invariant_under_step_permutation c6WitnessTest
    [⟨("second action").toList, 7⟩, ⟨("first action").toList, 4⟩]
    [⟨("first check").toList, 9⟩] (by decide) (by decide) (by decide) (by decide)

/-- A test with two action steps sharing a source line. -/
def c6DupTest : ParsedTest :=
  ⟨("Some long test title").toList, none, TestType.normal,
    ⟨none, none, none, []⟩,
    [⟨("alpha").toList, 1⟩, ⟨("beta").toList, 1⟩], [], 1⟩

/-- The same test with the two same-line steps swapped in memory. -/
def c6DupPermuted : ParsedTest :=
  ⟨("Some long test title").toList, none, TestType.normal,
    ⟨none, none, none, []⟩,
    [⟨("beta").toList, 1⟩, ⟨("alpha").toList, 1⟩], [], 1⟩

/-- C6 is false as stated: permuting two in-memory action steps that
share a recorded source line (each step keeping its own line number)
changes the fingerprint, because the stable sort preserves the in-memory
order of equal keys. -/
theorem c6_counterexample :
    c6DupPermuted.actionSteps.Perm c6DupTest.actionSteps ∧
    c6DupPermuted.verificationSteps = c6DupTest.verificationSteps ∧
    c6DupPermuted.title = c6DupTest.title ∧
    c6DupPermuted.jsdocTags = c6DupTest.jsdocTags ∧
    (∀ s ∈ c6DupPermuted.actionSteps, s.lineNumber = 1) ∧
    calculateHash c6DupPermuted ≠ calculateHash c6DupTest := by
  refine ⟨by decide, rfl, rfl, rfl, by decide, by decide⟩

theorem trimLeft_append_of_nonws (a y : Str) (h : ∃ x ∈ a, isJsWhitespace x = false) :
    trimLeft (a ++ y) = trimLeft a ++ y := by
  unfold trimLeft
  rw [List.dropWhile_append]
  have hne : (a.dropWhile isJsWhitespace).isEmpty = false := by
    obtain ⟨x, hx, hw⟩ := h
    cases hd : (a.dropWhile isJsWhitespace).isEmpty with
    | false => rfl
    | true =>
        rw [List.isEmpty_iff] at hd
        have := List.dropWhile_eq_nil_iff.mp hd x hx
        rw [hw] at this
        exact absurd this (by simp)
  rw [if_neg (by simp [hne])]

theorem trimRight_append_of_nonws (y b : Str) (h : ∃ x ∈ b, isJsWhitespace x = false) :
    trimRight (y ++ b) = y ++ trimRight b := by
  unfold trimRight
  rw [List.reverse_append, List.dropWhile_append]
  have hne : (b.reverse.dropWhile isJsWhitespace).isEmpty = false := by
    obtain ⟨x, hx, hw⟩ := h
    cases hd : (b.reverse.dropWhile isJsWhitespace).isEmpty with
    | false => rfl
    | true =>
        rw [List.isEmpty_iff] at hd
        have := List.dropWhile_eq_nil_iff.mp hd x (List.mem_reverse.mpr hx)
        rw [hw] at this
        exact absurd this (by simp)
  rw [if_neg (by simp [hne]), List.reverse_append, List.reverse_reverse]

theorem jsTrim_split (a b m : Str) (ha : ∃ x ∈ a, isJsWhitespace x = false)
    (hb : ∃ x ∈ b, isJsWhitespace x = false) :
    jsTrim (a ++ (m ++ b)) = trimLeft a ++ (m ++ trimRight b) := by
  unfold jsTrim
  rw [trimLeft_append_of_nonws a (m ++ b) ha]
  rw [show trimLeft a ++ (m ++ b) = (trimLeft a ++ m) ++ b from by rw [List.append_assoc]]
  rw [trimRight_append_of_nonws _ _ hb, List.append_assoc]

theorem jsTrim_insert_length (a w b : Str) (ha : ∃ x ∈ a, isJsWhitespace x = false)
    (hb : ∃ x ∈ b, isJsWhitespace x = false) :
    (jsTrim (a ++ (w ++ b))).length = (jsTrim (a ++ b)).length + w.length := by
  rw [jsTrim_split a b w ha hb]
  have h2 : jsTrim (a ++ b) = trimLeft a ++ ([] ++ trimRight b) := by
    have := jsTrim_split a b [] ha hb
    simpa using this
  rw [h2]
  simp [List.length_append]
  omega

/-- Pointwise relation between steps that keep their line number and
whose texts agree after trimming. -/
def stepTrimEq (s t : TestStep) : Prop :=
  s.lineNumber = t.lineNumber ∧ jsTrim s.text = jsTrim t.text

/-- Relation between optional truthiness-gated leaf fields: both absent,
or both present with equal trimmed values and agreeing emptiness. -/
def gatedEq : Option Str → Option Str → Prop
  | none, none => True
  | some s, some t => jsTrim s = jsTrim t ∧ s.isEmpty = t.isEmpty
  | _, _ => False

/-- Relation between the string-or-array precondition fields: same
shape, trim-equal contents, agreeing emptiness for the string form. -/
def preEq : Option StrOrList → Option StrOrList → Prop
  | none, none => True
  | some (.str s), some (.str t) => jsTrim s = jsTrim t ∧ s.isEmpty = t.isEmpty
  | some (.list l), some (.list m) => List.Forall₂ (fun x y => jsTrim x = jsTrim y) l m
  | _, _ => False

theorem orderedInsert_forall₂ (x y : TestStep) (l m : List TestStep) (hxy : stepTrimEq x y)
    (h : List.Forall₂ stepTrimEq l m) :
    List.Forall₂ stepTrimEq (List.orderedInsert stepLe x l) (List.orderedInsert stepLe y m) := by
  induction h with
  | nil => exact List.Forall₂.cons hxy List.Forall₂.nil
  | cons hab hrest ih =>
      rename_i a b l2 m2
      unfold List.orderedInsert
      by_cases hle : stepLe x a
      · have hle2 : stepLe y b := by
          unfold stepLe at hle ⊢
          rw [← hxy.1, ← hab.1]
          exact hle
        rw [if_pos hle, if_pos hle2]
        exact List.Forall₂.cons hxy (List.Forall₂.cons hab hrest)
      · have hle2 : ¬ stepLe y b := by
          unfold stepLe at hle ⊢
          rw [← hxy.1, ← hab.1]
          exact hle
        rw [if_neg hle, if_neg hle2]
        exact List.Forall₂.cons hab ih

theorem sortSteps_forall₂ (l m : List TestStep) (h : List.Forall₂ stepTrimEq l m) :
    List.Forall₂ stepTrimEq (sortSteps l) (sortSteps m) := by
  induction h with
  | nil => exact List.Forall₂.nil
  | cons hab hrest ih => exact orderedInsert_forall₂ _ _ _ _ hab ih

theorem forall₂_stepTrim_map (l m : List TestStep) (h : List.Forall₂ stepTrimEq l m) :
    l.map (fun s => jsTrim s.text) = m.map (fun s => jsTrim s.text) := by
  induction h with
  | nil => rfl
  | cons hab hrest ih => simp [hab.2, ih]

theorem forall₂_jsTrim_map (l m : List Str)
    (h : List.Forall₂ (fun x y => jsTrim x = jsTrim y) l m) : l.map jsTrim = m.map jsTrim := by
  induction h with
  | nil => rfl
  | cons hab hrest ih => simp [hab, ih]

theorem forall₂_isEmpty {α β : Type} {R : α → β → Prop} (l : List α) (m : List β)
    (h : List.Forall₂ R l m) : l.isEmpty = m.isEmpty := by
  cases h with
  | nil => rfl
  | cons hab hrest => rfl

theorem objectivePart_congr (t1 t2 : JSDocTags) (h : gatedEq t1.objective t2.objective) :
    objectivePart t1 = objectivePart t2 := by
  unfold objectivePart
  cases h1 : t1.objective with
  | none =>
      cases h2 : t2.objective with
      | none => rfl
      | some o2 => rw [h1, h2] at h; exact absurd h (by simp [gatedEq])
  | some o1 =>
      cases h2 : t2.objective with
      | none => rw [h1, h2] at h; exact absurd h (by simp [gatedEq])
      | some o2 =>
          rw [h1, h2] at h
          obtain ⟨htrim, hemp⟩ := h
          simp only [htrim, hemp]

theorem knownIssuePart_congr (t1 t2 : JSDocTags) (h : gatedEq t1.knownIssue t2.knownIssue) :
    knownIssuePart t1 = knownIssuePart t2 := by
  unfold knownIssuePart
  cases h1 : t1.knownIssue with
  | none =>
      cases h2 : t2.knownIssue with
      | none => rfl
      | some o2 => rw [h1, h2] at h; exact absurd h (by simp [gatedEq])
  | some o1 =>
      cases h2 : t2.knownIssue with
      | none => rw [h1, h2] at h; exact absurd h (by simp [gatedEq])
      | some o2 =>
          rw [h1, h2] at h
          obtain ⟨htrim, hemp⟩ := h
          simp only [htrim, hemp]

theorem preconditionPart_congr (t1 t2 : JSDocTags) (h : preEq t1.precondition t2.precondition) :
    preconditionPart t1 = preconditionPart t2 := by
  unfold preconditionPart
  cases h1 : t1.precondition with
  | none =>
      cases h2 : t2.precondition with
      | none => rfl
      | some sl =>
          rw [h1, h2] at h
          cases sl <;> exact absurd h (by simp [preEq])
  | some sl1 =>
      cases h2 : t2.precondition with
      | none =>
          rw [h1, h2] at h
          cases sl1 <;> exact absurd h (by simp [preEq])
      | some sl2 =>
          rw [h1, h2] at h
          cases sl1 with
          | str s1 =>
              cases sl2 with
              | str s2 =>
                  obtain ⟨htrim, hemp⟩ := h
                  simp only [List.map_cons, List.map_nil, htrim, hemp]
              | list m2 => exact absurd h (by simp [preEq])
          | list l1 =>
              cases sl2 with
              | str s2 => exact absurd h (by simp [preEq])
              | list m2 =>
                  have hmap := forall₂_jsTrim_map l1 m2 h
                  simp only [hmap]

theorem actionsPart_congr (l m : List TestStep) (h : List.Forall₂ stepTrimEq l m) :
    actionsPart l = actionsPart m := by
  unfold actionsPart
  rw [forall₂_isEmpty l m h,
    forall₂_stepTrim_map _ _ (sortSteps_forall₂ l m h)]

theorem verificationsPart_congr (l m : List TestStep) (h : List.Forall₂ stepTrimEq l m) :
    verificationsPart l = verificationsPart m := by
  unfold verificationsPart
  rw [forall₂_isEmpty l m h,
    forall₂_stepTrim_map _ _ (sortSteps_forall₂ l m h)]

theorem joinChar_length (c : Char) (ls : List Str) :
    (joinChar c ls).length = (ls.map List.length).sum + (ls.length - 1) := by
  induction ls with
  | nil => rfl
  | cons x ys ih =>
      cases ys with
      | nil => simp [joinChar]
      | cons y ys2 =>
          simp only [joinChar, List.length_append, List.length_cons, List.map_cons,
            List.sum_cons] at ih ⊢
          omega

theorem cons_append_isEmpty {α : Type} (l1 l2 : List α) (x : α) :
    (l1 ++ x :: l2).isEmpty = false := by
  cases l1 <;> rfl

theorem actionsPart_map_length_sum (steps : List TestStep) (h : steps.isEmpty = false) :
    ((actionsPart steps).map List.length).sum =
      actionsLabel.length + ((steps.map (fun s => (jsTrim s.text).length)).sum +
        (steps.length - 1)) := by
  unfold actionsPart
  rw [if_neg (by simp [h])]
  simp only [List.map_cons, List.map_nil, List.sum_cons, List.sum_nil, List.length_append]
  rw [joinChar_length, List.map_map]
  have h1 : ((sortSteps steps).map (List.length ∘ fun s => jsTrim s.text)).sum =
      (steps.map (List.length ∘ fun s => jsTrim s.text)).sum :=
    ((sortSteps_perm steps).map _).sum_eq
  rw [h1, List.length_map, (sortSteps_perm steps).length_eq]
  simp [Function.comp_def]

theorem actionsPart_length_one (steps : List TestStep) (h : steps.isEmpty = false) :
    (actionsPart steps).length = 1 := by
  unfold actionsPart
  rw [if_neg (by simp [h])]
  rfl

theorem verificationsPart_map_length_sum (steps : List TestStep)
    (h : steps.isEmpty = false) :
    ((verificationsPart steps).map List.length).sum =
      verificationsLabel.length + ((steps.map (fun s => (jsTrim s.text).length)).sum +
        (steps.length - 1)) := by
  unfold verificationsPart
  rw [if_neg (by simp [h])]
  simp only [List.map_cons, List.map_nil, List.sum_cons, List.sum_nil, List.length_append]
  rw [joinChar_length, List.map_map]
  have h1 : ((sortSteps steps).map (List.length ∘ fun s => jsTrim s.text)).sum =
      (steps.map (List.length ∘ fun s => jsTrim s.text)).sum :=
    ((sortSteps_perm steps).map _).sum_eq
  rw [h1, List.length_map, (sortSteps_perm steps).length_eq]
  simp [Function.comp_def]

theorem verificationsPart_length_one (steps : List TestStep)
    (h : steps.isEmpty = false) :
    (verificationsPart steps).length = 1 := by
  unfold verificationsPart
  rw [if_neg (by simp [h])]
  rfl

/-- C5 amended: replacing leaves by trim-equivalent strings preserves the
fingerprint provided the replacement also preserves emptiness of the
truthiness-gated optional fields (objective, string-form precondition,
knownIssue) - an empty optional leaf is treated as absent, so padding it
toggles the section; step texts carry no such gate.  Inserting a
nonempty interior whitespace run into a step text (interior meaning a
non-whitespace character stands on both sides) always changes the
fingerprint, whether the step is an action step or a verification
step. -/
theorem c5_trim_behavior :
    (∀ t1 t2 : ParsedTest,
      gatedEq t1.jsdocTags.objective t2.jsdocTags.objective →
      preEq t1.jsdocTags.precondition t2.jsdocTags.precondition →
      gatedEq t1.jsdocTags.knownIssue t2.jsdocTags.knownIssue →
      List.Forall₂ stepTrimEq t1.actionSteps t2.actionSteps →
      List.Forall₂ stepTrimEq t1.verificationSteps t2.verificationSteps →
      calculateHash t1 = calculateHash t2) ∧
    (∀ (t : ParsedTest) (l1 l2 : List TestStep) (a w b : Str) (ln : Nat),
      t.actionSteps = l1 ++ (⟨a ++ b, ln⟩ : TestStep) :: l2 →
      (∃ x ∈ a, isJsWhitespace x = false) →
      (∃ x ∈ b, isJsWhitespace x = false) →
      w ≠ [] → (∀ x ∈ w, isJsWhitespace x = true) →
      calculateHash { t with actionSteps := l1 ++ (⟨a ++ (w ++ b), ln⟩ : TestStep) :: l2 } ≠
        calculateHash t) ∧
    (∀ (t : ParsedTest) (l1 l2 : List TestStep) (a w b : Str) (ln : Nat),
      t.verificationSteps = l1 ++ (⟨a ++ b, ln⟩ : TestStep) :: l2 →
      (∃ x ∈ a, isJsWhitespace x = false) →
      (∃ x ∈ b, isJsWhitespace x = false) →
      w ≠ [] → (∀ x ∈ w, isJsWhitespace x = true) →
      calculateHash
          { t with verificationSteps := l1 ++ (⟨a ++ (w ++ b), ln⟩ : TestStep) :: l2 } ≠
        calculateHash t) := by
  refine ⟨?_, ?_, ?_⟩
  · intro t1 t2 hobj hpre hki hact hver
    unfold calculateHash calculateHashInput calculateHashParts
    rw [objectivePart_congr _ _ hobj, preconditionPart_congr _ _ hpre,
      knownIssuePart_congr _ _ hki, actionsPart_congr _ _ hact,
      verificationsPart_congr _ _ hver]
  · intro t l1 l2 a w b ln ht ha hb hw0 hwws
    intro heq
    have hlen := congrArg List.length heq
    unfold calculateHash calculateHashInput at hlen
    rw [joinChar_length, joinChar_length] at hlen
    unfold calculateHashParts at hlen
    rw [ht] at hlen
    have hne1 : ((l1 ++ (⟨a ++ (w ++ b), ln⟩ : TestStep) :: l2)).isEmpty = false :=
      cons_append_isEmpty _ _ _
    have hne2 : ((l1 ++ (⟨a ++ b, ln⟩ : TestStep) :: l2)).isEmpty = false :=
      cons_append_isEmpty _ _ _
    simp only [List.map_append, List.sum_append, List.length_append] at hlen
    rw [actionsPart_map_length_sum _ hne1, actionsPart_map_length_sum _ hne2] at hlen
    rw [actionsPart_length_one _ hne1, actionsPart_length_one _ hne2] at hlen
    simp only [List.map_append, List.map_cons, List.sum_append, List.sum_cons,
      List.length_append, List.length_cons] at hlen
    rw [jsTrim_insert_length a w b ha hb] at hlen
    have hwlen : 0 < w.length := List.length_pos.mpr hw0
    omega
  · intro t l1 l2 a w b ln ht ha hb hw0 hwws
    intro heq
    have hlen := congrArg List.length heq
    unfold calculateHash calculateHashInput at hlen
    rw [joinChar_length, joinChar_length] at hlen
    unfold calculateHashParts at hlen
    rw [ht] at hlen
    have hne1 : ((l1 ++ (⟨a ++ (w ++ b), ln⟩ : TestStep) :: l2)).isEmpty = false :=
      cons_append_isEmpty _ _ _
    have hne2 : ((l1 ++ (⟨a ++ b, ln⟩ : TestStep) :: l2)).isEmpty = false :=
      cons_append_isEmpty _ _ _
    simp only [List.map_append, List.sum_append, List.length_append] at hlen
    rw [verificationsPart_map_length_sum _ hne1,
      verificationsPart_map_length_sum _ hne2] at hlen
    rw [verificationsPart_length_one _ hne1, verificationsPart_length_one _ hne2] at hlen
    simp only [List.map_append, List.map_cons, List.sum_append, List.sum_cons,
      List.length_append, List.length_cons] at hlen
    rw [jsTrim_insert_length a w b ha hb] at hlen
    have hwlen : 0 < w.length := List.length_pos.mpr hw0
    omega

/-- A test used by the C5 witness: leaves carrying extra outer
whitespace. -/
def c5PaddedTest : ParsedTest :=
  ⟨("A nice and long test title").toList, none, TestType.normal,
    ⟨some (("  An objective  ").toList), some (StrOrList.list [(" p1 ").toList]),
      none, []⟩,
    [⟨(" do something ").toList, 3⟩], [⟨(" check something ").toList, 5⟩], 1⟩

/-- The same test with the leaves trimmed. -/
def c5TrimmedTest : ParsedTest :=
  ⟨("A nice and long test title").toList, none, TestType.normal,
    ⟨some (("An objective").toList), some (StrOrList.list [("p1").toList]),
      none, []⟩,
    [⟨("do something").toList, 3⟩], [⟨("check something").toList, 5⟩], 1⟩

/-- A test used by the C5 witness for interior insertion into an action
step. -/
def c5BaseTest : ParsedTest :=
  ⟨("A nice and long test title").toList, none, TestType.normal,
    ⟨none, none, none, []⟩,
    [⟨("do" ++ (" it" : String)).toList, 3⟩], [], 1⟩

/-- A test used by the C5 witness for interior insertion into a
verification step. -/
def c5BaseVerifTest : ParsedTest :=
  ⟨("A nice and long test title").toList, none, TestType.normal,
    ⟨none, none, none, []⟩,
    [], [⟨("see" ++ (" it" : String)).toList, 5⟩], 1⟩

/-- Witness for C5: padding the leaves of a concrete test leaves the
fingerprint unchanged, while inserting an interior space run into an
action step text or into a verification step text changes it. -/
theorem c5_witness :
    calculateHash c5PaddedTest = calculateHash c5TrimmedTest ∧
    (calculateHash
        { c5BaseTest with
          actionSteps := [⟨(("do").toList ++ (("  ").toList ++ (" it").toList)), 3⟩] } ≠
      calculateHash c5BaseTest) ∧
    calculateHash
        { c5BaseVerifTest with
          verificationSteps :=
            [⟨(("see").toList ++ (("  ").toList ++ (" it").toList)), 5⟩] } ≠
      calculateHash c5BaseVerifTest := by
  refine ⟨?_, ?_, ?_⟩
  · exact c5_trim_behavior.1 c5PaddedTest c5TrimmedTest
      ⟨by decide, by decide⟩
      (List.Forall₂.cons (by decide) List.Forall₂.nil)
      (by trivial)
      (List.Forall₂.cons ⟨by decide, by decide⟩ List.Forall₂.nil)
      (List.Forall₂.cons ⟨by decide, by decide⟩ List.Forall₂.nil)
  · exact c5_trim_behavior.2.1 c5BaseTest [] [] (("do").toList) (("  ").toList)
      ((" it").toList) 3 (by decide) (by decide) (by decide) (by decide) (by decide)
  · exact c5_trim_behavior.2.2 c5BaseVerifTest [] [] (("see").toList) (("  ").toList)
      ((" it").toList) 5 (by decide) (by decide) (by decide) (by decide) (by decide)

/-- A test whose objective is the empty string (falsy, so the objective
section is omitted). -/
def c5EmptyObjectiveTest : ParsedTest :=
  ⟨("A nice and long test title").toList, none, TestType.normal,
    ⟨some [], none, none, []⟩, [⟨("do").toList, 3⟩], [], 1⟩

/-- The same test with the objective padded to a single space (truthy,
so the empty-content objective section appears). -/
def c5PaddedObjectiveTest : ParsedTest :=
  ⟨("A nice and long test title").toList, none, TestType.normal,
    ⟨some ((" ").toList), none, none, []⟩, [⟨("do").toList, 3⟩], [], 1⟩

/-- C5 is false as stated: padding the empty objective with a space is a
pure leading/trailing-whitespace change (the trimmed values agree), yet
the fingerprint changes, because presence of the objective section is
decided by JS truthiness and the empty string is falsy. -/
theorem c5_counterexample :
    jsTrim ((" ").toList) = jsTrim ([] : Str) ∧
    calculateHash c5PaddedObjectiveTest ≠ calculateHash c5EmptyObjectiveTest := by
  exact ⟨by decide, by decide⟩

/-- The canonical content of a test as hashed by calculateHash: the
optional trimmed objective (present iff truthy), the optional trimmed
precondition list (present iff truthy; the string form is coerced to a
one-element list), the line-sorted trimmed step texts, and the optional
trimmed known issue. -/
structure CanonContent where
  objective : Option Str
  preconditions : Option (List Str)
  actions : List Str
  verifications : List Str
  knownIssue : Option Str
deriving DecidableEq, Repr

/-- The canonical content determined by a parsed test. -/
def canonContent (t : ParsedTest) : CanonContent :=
  ⟨(match t.jsdocTags.objective with
     | some o => if o.isEmpty then none else some (jsTrim o)
     | none => none),
   (match t.jsdocTags.precondition with
     | some (.str s) => if s.isEmpty then none else some ([s].map jsTrim)
     | some (.list l) => some (l.map jsTrim)
     | none => none),
   (sortSteps t.actionSteps).map (fun s => jsTrim s.text),
   (sortSteps t.verificationSteps).map (fun s => jsTrim s.text),
   (match t.jsdocTags.knownIssue with
     | some k => if k.isEmpty then none else some (jsTrim k)
     | none => none)⟩

/-- A canonical leaf that avoids both separator characters (newline
between sections, bar within a section). -/
def sepFree (s : Str) : Bool := !(s.contains '\n') && !(s.contains '|')

/-- Canonical contents in the separator-free regime: every leaf avoids
the two separators and a present precondition list is nonempty. -/
def cleanCanon (c : CanonContent) : Bool :=
  (match c.objective with
    | some s => sepFree s
    | none => true) &&
  (match c.preconditions with
    | some l => !l.isEmpty && l.all sepFree
    | none => true) &&
  c.actions.all sepFree && c.verifications.all sepFree &&
  (match c.knownIssue with
    | some s => sepFree s
    | none => true)

/-- A labelled section for an optional canonical value. -/
def optPart (label : Str) : Option Str → List Str
  | some s => [label ++ s]
  | none => []

/-- A labelled section for a canonical list, omitted when the list is
empty. -/
def listPart (label : Str) (l : List Str) : List Str :=
  if l.isEmpty then [] else [label ++ joinChar '|' l]

/-- The hash sections determined by a canonical content. -/
def partsFromCanon (c : CanonContent) : List Str :=
  optPart objectiveLabel c.objective ++
  optPart preconditionLabel (c.preconditions.map (fun l => joinChar '|' l)) ++
  listPart actionsLabel c.actions ++
  listPart verificationsLabel c.verifications ++
  optPart knownIssueLabel c.knownIssue

theorem map_sortSteps_isEmpty (steps : List TestStep) :
    (((sortSteps steps).map (fun s => jsTrim s.text))).isEmpty = steps.isEmpty := by
  rw [Bool.eq_iff_iff, List.isEmpty_iff, List.isEmpty_iff, ← List.length_eq_zero,
    ← List.length_eq_zero]
  simp [(sortSteps_perm steps).length_eq]

theorem calculateHashParts_eq_partsFromCanon (t : ParsedTest) :
    calculateHashParts t = partsFromCanon (canonContent t) := by
  unfold calculateHashParts partsFromCanon canonContent
  simp only
  have e1 : objectivePart t.jsdocTags =
      optPart objectiveLabel
        (match t.jsdocTags.objective with
          | some o => if o.isEmpty then none else some (jsTrim o)
          | none => none) := by
    unfold objectivePart optPart
    cases t.jsdocTags.objective with
    | none => rfl
    | some o =>
        by_cases h : o.isEmpty = true
        · simp [h]
        · simp only [Bool.not_eq_true] at h
          simp [h]
  have e2 : preconditionPart t.jsdocTags =
      optPart preconditionLabel
        ((match t.jsdocTags.precondition with
          | some (.str s) => if s.isEmpty then none else some ([s].map jsTrim)
          | some (.list l) => some (l.map jsTrim)
          | none => none).map (fun l => joinChar '|' l)) := by
    unfold preconditionPart optPart
    cases t.jsdocTags.precondition with
    | none => rfl
    | some sl =>
        cases sl with
        | str s =>
            by_cases h : s.isEmpty = true
            · simp [h]
            · simp only [Bool.not_eq_true] at h
              simp [h]
        | list l => rfl
  have e3 : actionsPart t.actionSteps =
      listPart actionsLabel ((sortSteps t.actionSteps).map (fun s => jsTrim s.text)) := by
    unfold actionsPart listPart
    rw [map_sortSteps_isEmpty]
  have e4 : verificationsPart t.verificationSteps =
      listPart verificationsLabel
        ((sortSteps t.verificationSteps).map (fun s => jsTrim s.text)) := by
    unfold verificationsPart listPart
    rw [map_sortSteps_isEmpty]
  have e5 : knownIssuePart t.jsdocTags =
      optPart knownIssueLabel
        (match t.jsdocTags.knownIssue with
          | some k => if k.isEmpty then none else some (jsTrim k)
          | none => none) := by
    unfold knownIssuePart optPart
    cases t.jsdocTags.knownIssue with
    | none => rfl
    | some k =>
        by_cases h : k.isEmpty = true
        · simp [h]
        · simp only [Bool.not_eq_true] at h
          simp [h]
  rw [e1, e2, e3, e4, e5]

theorem mem_joinChar (c : Char) (d : Char) :
    ∀ ls : List Str, d ∈ joinChar c ls → d = c ∨ ∃ x ∈ ls, d ∈ x := by
  intro ls
  induction ls with
  | nil => intro h; exact absurd h (by simp [joinChar])
  | cons x ys ih =>
      cases ys with
      | nil =>
          intro h
          exact Or.inr ⟨x, by simp, h⟩
      | cons y ys2 =>
          intro h
          rw [joinChar] at h
          rcases List.mem_append.mp h with hx | hrest
          · exact Or.inr ⟨x, by simp, hx⟩
          · rcases List.mem_cons.mp hrest with hc | hj
            · exact Or.inl hc
            · rcases ih hj with hc | ⟨z, hz, hdz⟩
              · exact Or.inl hc
              · exact Or.inr ⟨z, by simp [List.mem_cons.mpr (Or.inr hz)], hdz⟩

theorem append_cons_inj (c : Char) :
    ∀ (x1 x2 r1 r2 : Str), c ∉ x1 → c ∉ x2 →
      x1 ++ c :: r1 = x2 ++ c :: r2 → x1 = x2 ∧ r1 = r2 := by
  intro x1
  induction x1 with
  | nil =>
      intro x2 r1 r2 _ hc2 heq
      cases x2 with
      | nil => simpa using heq
      | cons b bs =>
          simp only [List.nil_append, List.cons_append, List.cons.injEq] at heq
          exact absurd (heq.1 ▸ List.mem_cons_self b bs) hc2
  | cons a as ih =>
      intro x2 r1 r2 hc1 hc2 heq
      cases x2 with
      | nil =>
          simp only [List.nil_append, List.cons_append, List.cons.injEq] at heq
          exact absurd (heq.1 ▸ List.mem_cons_self a as) hc1
      | cons b bs =>
          simp only [List.cons_append, List.cons.injEq] at heq
          obtain ⟨hab, hrest⟩ := heq
          have := ih bs r1 r2 (fun hm => hc1 (List.mem_cons_of_mem a hm))
            (fun hm => hc2 (List.mem_cons_of_mem b hm)) hrest
          exact ⟨by rw [hab, this.1], this.2⟩

theorem joinChar_inj_aux (c : Char) :
    ∀ (l1 l2 : List Str), (∀ x ∈ l1, x ≠ [] ∧ c ∉ x) → (∀ x ∈ l2, x ≠ [] ∧ c ∉ x) →
      joinChar c l1 = joinChar c l2 → l1 = l2 := by
  intro l1
  induction l1 with
  | nil =>
      intro l2 _ hp2 heq
      cases l2 with
      | nil => rfl
      | cons y ys =>
          exfalso
          cases ys with
          | nil =>
              exact (hp2 y (by simp)).1 (by simpa [joinChar] using heq.symm)
          | cons y2 ys2 =>
              rw [joinChar, joinChar] at heq
              cases hy : y with
              | nil => exact (hp2 y (by simp)).1 hy
              | cons a as => rw [hy] at heq; exact absurd heq.symm (by simp)
  | cons x xs ih =>
      intro l2 hp1 hp2 heq
      cases l2 with
      | nil =>
          exfalso
          cases xs with
          | nil =>
              exact (hp1 x (by simp)).1 (by simpa [joinChar] using heq)
          | cons x2 xs2 =>
              rw [joinChar, joinChar] at heq
              cases hx : x with
              | nil => exact (hp1 x (by simp)).1 hx
              | cons a as => rw [hx] at heq; exact absurd heq (by simp)
      | cons y ys =>
          cases xs with
          | nil =>
              cases ys with
              | nil =>
                  have : x = y := by simpa [joinChar] using heq
                  rw [this]
              | cons y2 ys2 =>
                  exfalso
                  rw [joinChar, joinChar] at heq
                  have hcmem : c ∈ y ++ c :: joinChar c (y2 :: ys2) := by simp
                  rw [← heq] at hcmem
                  exact (hp1 x (by simp)).2 hcmem
          | cons x2 xs2 =>
              cases ys with
              | nil =>
                  exfalso
                  rw [joinChar, joinChar] at heq
                  have hcmem : c ∈ x ++ c :: joinChar c (x2 :: xs2) := by simp
                  rw [heq] at hcmem
                  exact (hp2 y (by simp)).2 hcmem
              | cons y2 ys2 =>
                  rw [joinChar, joinChar] at heq
                  obtain ⟨hxy, hrest⟩ := append_cons_inj c x y _ _
                    (hp1 x (by simp)).2 (hp2 y (by simp)).2 heq
                  have htail := ih (y2 :: ys2)
                    (fun z hz => hp1 z (List.mem_cons_of_mem x hz))
                    (fun z hz => hp2 z (List.mem_cons_of_mem y hz)) hrest
                  rw [hxy, htail]

/-- Whether a section string starts with the given character; sections
are identified by their label head (o, p, a, v, k are pairwise
distinct). -/
def firstCharIs (ch : Char) (s : Str) : Bool := s.head? == some ch

/-- The first section starting with the given character. -/
def projSec (ch : Char) (secs : List Str) : Option Str := secs.find? (firstCharIs ch)

theorem find?_optPart_pos (ch : Char) (rest : Str) (o : Option Str) :
    (optPart (ch :: rest) o).find? (firstCharIs ch) = o.map ((ch :: rest) ++ ·) := by
  cases o with
  | none => rfl
  | some s => simp [optPart, firstCharIs, List.find?]

theorem find?_optPart_neg (ch ch2 : Char) (hne : ch2 ≠ ch) (rest : Str) (o : Option Str) :
    (optPart (ch2 :: rest) o).find? (firstCharIs ch) = none := by
  cases o with
  | none => rfl
  | some s => simp [optPart, firstCharIs, List.find?, beq_eq_false_iff_ne.mpr hne]

theorem find?_listPart_pos (ch : Char) (rest : Str) (l : List Str) :
    (listPart (ch :: rest) l).find? (firstCharIs ch) =
      (if l.isEmpty then none else some ((ch :: rest) ++ joinChar '|' l)) := by
  unfold listPart
  split
  · rfl
  · simp [firstCharIs, List.find?]

theorem find?_listPart_neg (ch ch2 : Char) (hne : ch2 ≠ ch) (rest : Str) (l : List Str) :
    (listPart (ch2 :: rest) l).find? (firstCharIs ch) = none := by
  unfold listPart
  split
  · rfl
  · simp [firstCharIs, List.find?, beq_eq_false_iff_ne.mpr hne]

theorem projSec_obj (c : CanonContent) :
    projSec 'o' (partsFromCanon c) = c.objective.map (objectiveLabel ++ ·) := by
  unfold projSec partsFromCanon
  rw [List.find?_append, List.find?_append, List.find?_append, List.find?_append]
  rw [show objectiveLabel = 'o' :: ("bjective:").toList from rfl,
    show preconditionLabel = 'p' :: ("recondition:").toList from rfl,
    show actionsLabel = 'a' :: ("ctions:").toList from rfl,
    show verificationsLabel = 'v' :: ("erifications:").toList from rfl,
    show knownIssueLabel = 'k' :: ("nownIssue:").toList from rfl]
  rw [find?_optPart_pos, find?_optPart_neg 'o' 'p' (by decide),
    find?_listPart_neg 'o' 'a' (by decide), find?_listPart_neg 'o' 'v' (by decide),
    find?_optPart_neg 'o' 'k' (by decide)]
  cases c.objective <;> simp

theorem projSec_pre (c : CanonContent) :
    projSec 'p' (partsFromCanon c) =
      (c.preconditions.map (fun l => joinChar '|' l)).map (preconditionLabel ++ ·) := by
  unfold projSec partsFromCanon
  rw [List.find?_append, List.find?_append, List.find?_append, List.find?_append]
  rw [show objectiveLabel = 'o' :: ("bjective:").toList from rfl,
    show preconditionLabel = 'p' :: ("recondition:").toList from rfl,
    show actionsLabel = 'a' :: ("ctions:").toList from rfl,
    show verificationsLabel = 'v' :: ("erifications:").toList from rfl,
    show knownIssueLabel = 'k' :: ("nownIssue:").toList from rfl]
  rw [find?_optPart_neg 'p' 'o' (by decide), find?_optPart_pos,
    find?_listPart_neg 'p' 'a' (by decide), find?_listPart_neg 'p' 'v' (by decide),
    find?_optPart_neg 'p' 'k' (by decide)]
  cases c.preconditions <;> simp

theorem projSec_act (c : CanonContent) :
    projSec 'a' (partsFromCanon c) =
      (if c.actions.isEmpty then none else some (actionsLabel ++ joinChar '|' c.actions)) := by
  unfold projSec partsFromCanon
  rw [List.find?_append, List.find?_append, List.find?_append, List.find?_append]
  rw [show objectiveLabel = 'o' :: ("bjective:").toList from rfl,
    show preconditionLabel = 'p' :: ("recondition:").toList from rfl,
    show actionsLabel = 'a' :: ("ctions:").toList from rfl,
    show verificationsLabel = 'v' :: ("erifications:").toList from rfl,
    show knownIssueLabel = 'k' :: ("nownIssue:").toList from rfl]
  rw [find?_optPart_neg 'a' 'o' (by decide), find?_optPart_neg 'a' 'p' (by decide),
    find?_listPart_pos, find?_listPart_neg 'a' 'v' (by decide),
    find?_optPart_neg 'a' 'k' (by decide)]
  split <;> simp

theorem projSec_ver (c : CanonContent) :
    projSec 'v' (partsFromCanon c) =
      (if c.verifications.isEmpty then none
       else some (verificationsLabel ++ joinChar '|' c.verifications)) := by
  unfold projSec partsFromCanon
  rw [List.find?_append, List.find?_append, List.find?_append, List.find?_append]
  rw [show objectiveLabel = 'o' :: ("bjective:").toList from rfl,
    show preconditionLabel = 'p' :: ("recondition:").toList from rfl,
    show actionsLabel = 'a' :: ("ctions:").toList from rfl,
    show verificationsLabel = 'v' :: ("erifications:").toList from rfl,
    show knownIssueLabel = 'k' :: ("nownIssue:").toList from rfl]
  rw [find?_optPart_neg 'v' 'o' (by decide), find?_optPart_neg 'v' 'p' (by decide),
    find?_listPart_neg 'v' 'a' (by decide), find?_listPart_pos,
    find?_optPart_neg 'v' 'k' (by decide)]
  split <;> simp

theorem projSec_ki (c : CanonContent) :
    projSec 'k' (partsFromCanon c) = c.knownIssue.map (knownIssueLabel ++ ·) := by
  unfold projSec partsFromCanon
  rw [List.find?_append, List.find?_append, List.find?_append, List.find?_append]
  rw [show objectiveLabel = 'o' :: ("bjective:").toList from rfl,
    show preconditionLabel = 'p' :: ("recondition:").toList from rfl,
    show actionsLabel = 'a' :: ("ctions:").toList from rfl,
    show verificationsLabel = 'v' :: ("erifications:").toList from rfl,
    show knownIssueLabel = 'k' :: ("nownIssue:").toList from rfl]
  rw [find?_optPart_neg 'k' 'o' (by decide), find?_optPart_neg 'k' 'p' (by decide),
    find?_listPart_neg 'k' 'a' (by decide), find?_listPart_neg 'k' 'v' (by decide),
    find?_optPart_pos]
  cases c.knownIssue <;> simp

theorem sepFree_spec (s : Str) (h : sepFree s = true) : '\n' ∉ s ∧ '|' ∉ s := by
  simpa [sepFree] using h

theorem label_append_ne_nil (label s : Str) (h : label ≠ []) : label ++ s ≠ [] := by
  intro hh
  exact h ((List.append_eq_nil.mp hh).1)

theorem joinChar_inj_ne (c : Char) :
    ∀ (l1 l2 : List Str), l1 ≠ [] → l2 ≠ [] → (∀ x ∈ l1, c ∉ x) → (∀ x ∈ l2, c ∉ x) →
      joinChar c l1 = joinChar c l2 → l1 = l2 := by
  intro l1
  induction l1 with
  | nil => intro l2 hne; exact absurd rfl hne
  | cons x xs ih =>
      intro l2 _ hne2 hp1 hp2 heq
      cases l2 with
      | nil => exact absurd rfl hne2
      | cons y ys =>
          cases xs with
          | nil =>
              cases ys with
              | nil =>
                  have : x = y := by simpa [joinChar] using heq
                  rw [this]
              | cons y2 ys2 =>
                  exfalso
                  rw [joinChar, joinChar] at heq
                  have hcmem : c ∈ y ++ c :: joinChar c (y2 :: ys2) := by simp
                  rw [← heq] at hcmem
                  exact hp1 x (by simp) hcmem
          | cons x2 xs2 =>
              cases ys with
              | nil =>
                  exfalso
                  rw [joinChar, joinChar] at heq
                  have hcmem : c ∈ x ++ c :: joinChar c (x2 :: xs2) := by simp
                  rw [heq] at hcmem
                  exact hp2 y (by simp) hcmem
              | cons y2 ys2 =>
                  rw [joinChar, joinChar] at heq
                  obtain ⟨hxy, hrest⟩ := append_cons_inj c x y _ _
                    (hp1 x (by simp)) (hp2 y (by simp)) heq
                  have htail := ih (y2 :: ys2) (by simp) (by simp)
                    (fun z hz => hp1 z (List.mem_cons_of_mem x hz))
                    (fun z hz => hp2 z (List.mem_cons_of_mem y hz)) hrest
                  rw [hxy, htail]

theorem cleanCanon_parts (c : CanonContent) (h : cleanCanon c = true) :
    (∀ l, c.preconditions = some l → l ≠ [] ∧ ∀ x ∈ l, '|' ∉ x) ∧
    (∀ x ∈ c.actions, '|' ∉ x) ∧ (∀ x ∈ c.verifications, '|' ∉ x) := by
  unfold cleanCanon at h
  simp only [Bool.and_eq_true] at h
  obtain ⟨⟨⟨⟨hobj, hpre⟩, hact⟩, hver⟩, hki⟩ := h
  refine ⟨?_, ?_, ?_⟩
  · intro l hl
    rw [hl] at hpre
    simp only [Bool.and_eq_true] at hpre
    constructor
    · intro hnil
      rw [hnil] at hpre
      exact absurd hpre.1 (by simp)
    · intro x hx
      exact (sepFree_spec x (List.all_eq_true.mp hpre.2 x hx)).2
  · intro x hx
    exact (sepFree_spec x (List.all_eq_true.mp hact x hx)).2
  · intro x hx
    exact (sepFree_spec x (List.all_eq_true.mp hver x hx)).2

theorem partsFromCanon_pieces (c : CanonContent) (h : cleanCanon c = true) :
    ∀ x ∈ partsFromCanon c, x ≠ [] ∧ '\n' ∉ x := by
  have hparts := cleanCanon_parts c h
  unfold cleanCanon at h
  simp only [Bool.and_eq_true] at h
  obtain ⟨⟨⟨⟨hobj, hpre⟩, hact⟩, hver⟩, hki⟩ := h
  intro x hx
  unfold partsFromCanon at hx
  simp only [List.mem_append] at hx
  rcases hx with ((((h1 | h2) | h3) | h4) | h5)
  · cases ho : c.objective with
    | none => rw [ho] at h1; exact absurd h1 (by simp [optPart])
    | some s =>
        rw [ho] at h1 hobj
        simp only [optPart, List.mem_singleton] at h1
        subst h1
        refine ⟨label_append_ne_nil _ _ (by decide), ?_⟩
        intro hmem
        rcases List.mem_append.mp hmem with hin | hin
        · exact absurd hin (by decide)
        · exact (sepFree_spec s hobj).1 hin
  · cases hp : c.preconditions with
    | none => rw [hp] at h2; exact absurd h2 (by simp [optPart])
    | some l =>
        rw [hp] at h2 hpre
        simp only [Option.map_some', optPart, List.mem_singleton] at h2
        subst h2
        refine ⟨label_append_ne_nil _ _ (by decide), ?_⟩
        intro hmem
        rcases List.mem_append.mp hmem with hin | hin
        · exact absurd hin (by decide)
        · rcases mem_joinChar '|' '\n' l hin with hc | ⟨z, hz, hdz⟩
          · exact absurd hc (by decide)
          · simp only [Bool.and_eq_true] at hpre
            exact (sepFree_spec z (List.all_eq_true.mp hpre.2 z hz)).1 hdz
  · unfold listPart at h3
    split at h3
    · exact absurd h3 (by simp)
    · simp only [List.mem_singleton] at h3
      subst h3
      refine ⟨label_append_ne_nil _ _ (by decide), ?_⟩
      intro hmem
      rcases List.mem_append.mp hmem with hin | hin
      · exact absurd hin (by decide)
      · rcases mem_joinChar '|' '\n' c.actions hin with hc | ⟨z, hz, hdz⟩
        · exact absurd hc (by decide)
        · exact (sepFree_spec z (List.all_eq_true.mp hact z hz)).1 hdz
  · unfold listPart at h4
    split at h4
    · exact absurd h4 (by simp)
    · simp only [List.mem_singleton] at h4
      subst h4
      refine ⟨label_append_ne_nil _ _ (by decide), ?_⟩
      intro hmem
      rcases List.mem_append.mp hmem with hin | hin
      · exact absurd hin (by decide)
      · rcases mem_joinChar '|' '\n' c.verifications hin with hc | ⟨z, hz, hdz⟩
        · exact absurd hc (by decide)
        · exact (sepFree_spec z (List.all_eq_true.mp hver z hz)).1 hdz
  · cases hk : c.knownIssue with
    | none => rw [hk] at h5; exact absurd h5 (by simp [optPart])
    | some s =>
        rw [hk] at h5 hki
        simp only [optPart, List.mem_singleton] at h5
        subst h5
        refine ⟨label_append_ne_nil _ _ (by decide), ?_⟩
        intro hmem
        rcases List.mem_append.mp hmem with hin | hin
        · exact absurd hin (by decide)
        · exact (sepFree_spec s hki).1 hin

theorem isEmpty_false_ne_nil {α : Type} {l : List α} (h : ¬ l.isEmpty = true) : l ≠ [] := by
  intro hnil
  rw [hnil] at h
  exact h rfl

theorem canon_inj (c1 c2 : CanonContent) (h1 : cleanCanon c1 = true)
    (h2 : cleanCanon c2 = true)
    (heq : joinChar '\n' (partsFromCanon c1) = joinChar '\n' (partsFromCanon c2)) :
    c1 = c2 := by
  have hsec : partsFromCanon c1 = partsFromCanon c2 :=
    joinChar_inj_aux '\n' _ _ (partsFromCanon_pieces c1 h1) (partsFromCanon_pieces c2 h2) heq
  have hparts1 := cleanCanon_parts c1 h1
  have hparts2 := cleanCanon_parts c2 h2
  have hobj : c1.objective = c2.objective := by
    have hp := congrArg (projSec 'o') hsec
    rw [projSec_obj, projSec_obj] at hp
    exact Option.map_injective (fun a b hab => List.append_cancel_left hab) hp
  have hki : c1.knownIssue = c2.knownIssue := by
    have hp := congrArg (projSec 'k') hsec
    rw [projSec_ki, projSec_ki] at hp
    exact Option.map_injective (fun a b hab => List.append_cancel_left hab) hp
  have hpre : c1.preconditions = c2.preconditions := by
    have hp := congrArg (projSec 'p') hsec
    rw [projSec_pre, projSec_pre] at hp
    have hp2 : c1.preconditions.map (fun l => joinChar '|' l) =
        c2.preconditions.map (fun l => joinChar '|' l) :=
      Option.map_injective (fun a b hab => List.append_cancel_left hab) hp
    cases hc1 : c1.preconditions with
    | none =>
        cases hc2 : c2.preconditions with
        | none => rfl
        | some l2 => rw [hc1, hc2] at hp2; exact absurd hp2 (by simp)
    | some l1 =>
        cases hc2 : c2.preconditions with
        | none => rw [hc1, hc2] at hp2; exact absurd hp2 (by simp)
        | some l2 =>
            rw [hc1, hc2] at hp2
            simp only [Option.map_some', Option.some.injEq] at hp2
            have hl1 := hparts1.1 l1 hc1
            have hl2 := hparts2.1 l2 hc2
            rw [joinChar_inj_ne '|' l1 l2 hl1.1 hl2.1 hl1.2 hl2.2 hp2]
  have hactns : c1.actions = c2.actions := by
    have hp := congrArg (projSec 'a') hsec
    rw [projSec_act, projSec_act] at hp
    by_cases e1 : c1.actions.isEmpty = true <;> by_cases e2 : c2.actions.isEmpty = true
    · rw [List.isEmpty_iff] at e1 e2
      rw [e1, e2]
    · rw [if_pos e1, if_neg e2] at hp; exact absurd hp (by simp)
    · rw [if_neg e1, if_pos e2] at hp; exact absurd hp (by simp)
    · rw [if_neg e1, if_neg e2] at hp
      simp only [Option.some.injEq] at hp
      have hj := List.append_cancel_left hp
      exact joinChar_inj_ne '|' _ _ (isEmpty_false_ne_nil e1) (isEmpty_false_ne_nil e2)
        hparts1.2.1 hparts2.2.1 hj
  have hvers : c1.verifications = c2.verifications := by
    have hp := congrArg (projSec 'v') hsec
    rw [projSec_ver, projSec_ver] at hp
    by_cases e1 : c1.verifications.isEmpty = true <;>
      by_cases e2 : c2.verifications.isEmpty = true
    · rw [List.isEmpty_iff] at e1 e2
      rw [e1, e2]
    · rw [if_pos e1, if_neg e2] at hp; exact absurd hp (by simp)
    · rw [if_neg e1, if_pos e2] at hp; exact absurd hp (by simp)
    · rw [if_neg e1, if_neg e2] at hp
      simp only [Option.some.injEq] at hp
      have hj := List.append_cancel_left hp
      exact joinChar_inj_ne '|' _ _ (isEmpty_false_ne_nil e1) (isEmpty_false_ne_nil e2)
        hparts1.2.2 hparts2.2.2 hj
  cases c1 with
  | mk o1 p1 a1 v1 k1 =>
      cases c2 with
      | mk o2 p2 a2 v2 k2 =>
          simp only at hobj hpre hactns hvers hki
          rw [hobj, hpre, hactns, hvers, hki]

/-- C2 amended: the canonicalization is injective on the separator-free
regime - for any two tests whose canonical contents differ, whose
canonical leaves contain neither the newline section separator nor the
bar item separator, and whose present precondition lists are nonempty,
the pre-hash strings differ.  Outside that regime the separators are
ambiguous: a step text containing a bar collides with the two steps it
splits into. -/
theorem c2_canonical_injectivity (t1 t2 : ParsedTest)
    (h1 : cleanCanon (canonContent t1) = true) (h2 : cleanCanon (canonContent t2) = true)
    (hne : canonContent t1 ≠ canonContent t2) :
    calculateHash t1 ≠ calculateHash t2 := by
  intro heq
  apply hne
  apply canon_inj _ _ h1 h2
  unfold calculateHash calculateHashInput at heq
  rw [calculateHashParts_eq_partsFromCanon, calculateHashParts_eq_partsFromCanon] at heq
  exact heq

/-- A test with one action step whose text contains the bar
separator. -/
def c2BarTest : ParsedTest :=
  ⟨("A long enough test title").toList, none, TestType.normal,
    ⟨none, none, none, []⟩, [⟨("a|b").toList, 1⟩], [], 1⟩

/-- A test with the two action steps the bar would split into. -/
def c2SplitTest : ParsedTest :=
  ⟨("A long enough test title").toList, none, TestType.normal,
    ⟨none, none, none, []⟩, [⟨("a").toList, 1⟩, ⟨("b").toList, 2⟩], [], 1⟩

/-- C2 is false as stated: one step containing the bar separator and two
separate steps have different canonical contents but identical pre-hash
strings (actions:a|b), hence identical fingerprints. -/
theorem c2_counterexample :
    canonContent c2BarTest ≠ canonContent c2SplitTest ∧
    calculateHash c2BarTest = calculateHash c2SplitTest := by
  exact ⟨by decide, by decide⟩

/-- A separator-free test with one objective. -/
def c2CleanTest1 : ParsedTest :=
  ⟨("A long enough test title").toList, none, TestType.normal,
    ⟨some (("First objective").toList), none, none, []⟩,
    [⟨("do something").toList, 2⟩], [], 1⟩

/-- The same test with a different objective. -/
def c2CleanTest2 : ParsedTest :=
  ⟨("A long enough test title").toList, none, TestType.normal,
    ⟨some (("Second objective").toList), none, none, []⟩,
    [⟨("do something").toList, 2⟩], [], 1⟩

/-- Witness for the amended C2 at two concrete separator-free tests with
different canonical contents. -/
theorem c2_witness : calculateHash c2CleanTest1 ≠ calculateHash c2CleanTest2 :=
  c2_canonical_injectivity c2CleanTest1 c2CleanTest2 (by decide) (by decide) (by decide)

end MMSync
